import Mathlib

/-!
Verification of the snap-nbd-server storage stack.

The development shallowly embeds the Go storage stack of the repository:
the copy-on-write (COW) overlay backend (`CowBackend`), the prefetch
wrapper (`PrefetchBackend`), and the patch tool, together with the pure
byte-store semantics of the base backend.  Byte buffers are `List Nat`,
overlay sector files are a map from sector index to file contents, and
all filesystem and base-device effects are made explicit (base-device
calls are recorded in a `BaseCall` trace).
-/

/-- Go-style `copy` into a slice: overwrite `buf` starting at position `pos`
with `data`, truncating at the end of `buf`.  The result has the length of
`buf`; positions outside `[pos, pos + data.length)` keep their old bytes. -/
def splice (buf : List Nat) (pos : Nat) (data : List Nat) : List Nat :=
  buf.take pos ++ data.take (buf.length - pos) ++ buf.drop (pos + data.length)


/-- A call made by the COW layer to the base backend.  The trace of these
calls makes the frame property (the COW layer never writes to the base)
expressible. -/
inductive BaseCall where
  | read (off len : Nat)
  | write (off : Nat) (data : List Nat)
  | size
  | sync
deriving DecidableEq

/-- Whether a base call is a write. -/
def BaseCall.isWrite : BaseCall → Bool
  | BaseCall.write _ _ => true
  | _ => false

/-- Interpret a trace of base calls against base-device contents: only
write calls mutate the device. -/
def applyBaseCalls (calls : List BaseCall) (contents : List Nat) : List Nat :=
  match calls with
  | [] => contents
  | BaseCall.write off data :: rest => applyBaseCalls rest (splice contents off data)
  | _ :: rest => applyBaseCalls rest contents

/-- State of the COW overlay backend (`CowBackend` in `backend/cow.go` and
its later iteration): the immutable base contents, the configured sector
size, the overlay sector files on disk (indexed by sector number, which the
injective `sectorPath` encoding guarantees is faithful), the bloom filter
(over-approximated as the set of sector numbers added to it), and the LRU
sector cache. -/
structure CowBackend where
  base : List Nat
  sectorSize : Nat
  overlay : Nat → Option (List Nat)
  filter : Nat → Bool
  cache : Nat → Option (List Nat)

namespace CowBackend

/-- Replace the cache wholesale; this models LRU eviction having removed
an arbitrary set of entries between two operations. -/
def withCache (b : CowBackend) (c : Nat → Option (List Nat)) : CowBackend :=
  { b with cache := c }

/-- The "prepare sector data" step of `writeSector`: obtain the full
current contents of a sector into a fresh zero-initialized buffer of
`sectorSize` bytes.  If the overlay file exists its contents are read;
otherwise the cache is consulted; otherwise the sector is read from the
base (tolerating a short read near end-of-device, which leaves the zero
fill in place).  Also returns the base calls made. -/
def seedSector (b : CowBackend) (sector : Nat) : List Nat × List BaseCall :=
  match b.overlay sector with
  | some d => (splice (List.replicate b.sectorSize 0) 0 (d.take b.sectorSize), [])
  | none =>
    match b.cache sector with
    | some c => (splice (List.replicate b.sectorSize 0) 0 c, [])
    | none =>
      (splice (List.replicate b.sectorSize 0) 0
         ((b.base.drop (sector * b.sectorSize)).take b.sectorSize),
       [BaseCall.read (sector * b.sectorSize) b.sectorSize])

/-- `CowBackend.writeSector`: seed the full sector buffer, overlay the
written bytes at the in-sector offset, add the sector to the bloom filter,
update the cache, and write the buffer to the overlay file.  Returns the
new state, the byte count consumed (`len(p)`), and the base calls made. -/
def writeSector (b : CowBackend) (p : List Nat) (off : Nat) (sector : Nat) :
    CowBackend × Nat × List BaseCall :=
  let seed := seedSector b sector
  let sectorData := splice seed.1 (off % b.sectorSize) p
  ({ b with
      filter := fun k => if k = sector then true else b.filter k,
      cache := fun k => if k = sector then some sectorData else b.cache k,
      overlay := fun k => if k = sector then some sectorData else b.overlay k },
   p.length, seed.2)

/-- The per-sector loop of `CowBackend.WriteAt`: split the buffer at sector
boundaries and write each piece with `writeSector`, accumulating the byte
count and the base-call trace. -/
def writeLoop (b : CowBackend) : List Nat → List Nat → Nat → CowBackend × Nat × List BaseCall
  | [], _, _ => (b, 0, [])
  | sector :: rest, remaining, currentOff =>
    let sectorStart := currentOff % b.sectorSize
    let writeLen := min (b.sectorSize - sectorStart) remaining.length
    let w := writeSector b (remaining.take writeLen) currentOff sector
    let r := writeLoop w.1 rest (remaining.drop w.2.1) (currentOff + w.2.1)
    (r.1, w.2.1 + r.2.1, w.2.2 ++ r.2.2)

/-- Result of `CowBackend.WriteAt`. -/
structure WriteResult where
  backend : CowBackend
  count : Nat
  calls : List BaseCall

/-- `CowBackend.WriteAt p off`: write the buffer across the sectors it
intersects (sectors `off / sectorSize` through
`(off + len(p) - 1) / sectorSize`). -/
def WriteAt (b : CowBackend) (p : List Nat) (off : Nat) : WriteResult :=
  if p.length = 0 then ⟨b, 0, []⟩
  else
    let startSector := off / b.sectorSize
    let endSector := (off + p.length - 1) / b.sectorSize
    let r := writeLoop b (List.range' startSector (endSector + 1 - startSector)) p off
    ⟨r.1, r.2.1, r.2.2⟩

/-- `CowBackend.readBlackSectorToBuffer`, applied to the sub-slice of the
request buffer at `[bufOffset, bufOffset + length)`: copy from the cached
sector if present, otherwise read the needed slice from the overlay file
(populating the cache with the full sector), otherwise (bloom-filter false
positive, no file) leave the buffer untouched. -/
def readBlackSectorToBuffer (b : CowBackend) (sector : Nat)
    (bufOffset length sectorOffset : Nat) (buf : List Nat) : CowBackend × List Nat :=
  match b.cache sector with
  | some c => (b, splice buf bufOffset ((c.drop sectorOffset).take length))
  | none =>
    match b.overlay sector with
    | some d =>
      ({ b with
          cache := fun k =>
            if k = sector then
              some (splice (List.replicate b.sectorSize 0) 0 (d.take b.sectorSize))
            else b.cache k },
       splice buf bufOffset ((d.drop sectorOffset).take length))
    | none => (b, buf)

/-- One iteration of the overlay pass of `CowBackend.ReadAt`: if the bloom
filter reports the sector, overlay the intersection of the sector's byte
range with the request from the overlay data. -/
def readSectorStep (b : CowBackend) (sector : Nat) (buf : List Nat) (off : Nat) :
    CowBackend × List Nat :=
  if b.filter sector then
    let sectorStartOffset := sector * b.sectorSize
    let sectorEndOffset := sectorStartOffset + b.sectorSize - 1
    let readStart := max sectorStartOffset off
    let readEnd := min sectorEndOffset (off + buf.length - 1)
    if readStart ≤ readEnd then
      readBlackSectorToBuffer b sector (readStart - off) (readEnd - readStart + 1)
        (readStart - sectorStartOffset) buf
    else (b, buf)
  else (b, buf)

/-- The overlay pass of `CowBackend.ReadAt` over the intersected sectors. -/
def readLoop (b : CowBackend) : List Nat → List Nat → Nat → CowBackend × List Nat
  | [], buf, _ => (b, buf)
  | sector :: rest, buf, off =>
    let step := readSectorStep b sector buf off
    readLoop step.1 rest step.2 off

/-- Result of `CowBackend.ReadAt`.  `eof` models returning `io.EOF`. -/
structure ReadResult where
  backend : CowBackend
  buf : List Nat
  count : Nat
  eof : Bool
  calls : List BaseCall

/-- `CowBackend.ReadAt p off` (the base-pass iteration): read the whole
range from the base in one call, report `EOF` when the base returned fewer
bytes than requested, then overlay every filter-positive sector that the
request intersects. -/
def ReadAt (b : CowBackend) (p : List Nat) (off : Nat) : ReadResult :=
  if p.length = 0 then ⟨b, p, 0, false, []⟩
  else
    let baseBytes := (b.base.drop off).take p.length
    let n := baseBytes.length
    let buf1 := splice p 0 baseBytes
    let startSector := off / b.sectorSize
    let endSector := (off + p.length - 1) / b.sectorSize
    let r := readLoop b (List.range' startSector (endSector + 1 - startSector)) buf1 off
    ⟨r.1, r.2, n, decide (n < p.length), [BaseCall.read off p.length]⟩

/-- `CowBackend.Size`: delegates to the base. -/
def Size (b : CowBackend) : Nat × List BaseCall := (b.base.length, [BaseCall.size])

/-- `CowBackend.Sync` of the later iteration: delegates to the base's
`Sync` and returns its result. -/
def Sync (baseSync : Option String) : Option String × List BaseCall :=
  (baseSync, [BaseCall.sync])

/-- `CowBackend.Sync` of the `backend/cow.go` iteration: a no-op that
returns `nil` without calling the base. -/
def SyncOld (_baseSync : Option String) : Option String × List BaseCall :=
  (none, [])

/-- `CowBackend.Close` (`backend/cow.go`): a no-op. -/
def Close : Option String × List BaseCall := (none, [])

/-- The sector-size validation of `NewCowBackend`:
`sectorSize < 512 || sectorSize&(sectorSize-1) != 0` fails construction
with an invalid-configuration error. -/
def NewCowBackend (sectorSize : Int) : Except String Unit :=
  if sectorSize < 512 ∨ (sectorSize.toNat &&& (sectorSize.toNat - 1)) ≠ 0 then
    Except.error "sector size must be a multiple of 512 and a power of 2"
  else Except.ok ()

end CowBackend

/-- Direct positioned read against the base backend (both the raw-device
and regular-file variants): fill the buffer from the contents starting at
`off`, truncated at end of device; report `EOF` when fewer bytes than
requested were produced. -/
structure BaseReadResult where
  buf : List Nat
  count : Nat
  eof : Bool

/-- Semantics of `base.ReadAt` on a pure byte store. -/
def baseReadAt (base : List Nat) (p : List Nat) (off : Nat) : BaseReadResult :=
  let bytes := (base.drop off).take p.length
  ⟨splice p 0 bytes, bytes.length, decide (bytes.length < p.length)⟩

namespace CowBackend

/-- Value stored by the `WriteAt` loop for sector `k` when writing buffer
`rem` at absolute offset `cur`: the seeded sector contents overlaid, at the
in-sector position of the intersection, with the written bytes falling into
the sector. -/
def sectorWriteContent (b : CowBackend) (rem : List Nat) (cur : Nat) (k : Nat) : List Nat :=
  let ss := b.sectorSize
  let istart := max (k * ss) cur
  let iend := min ((k + 1) * ss) (cur + rem.length)
  splice (seedSector b k).1 (istart - k * ss) ((rem.drop (istart - cur)).take (iend - istart))

/-- The byte that the overlay pass of `ReadAt` imposes at absolute byte
position `i`, if any: present only when the bloom filter reports the
containing sector and either the sector cache or the overlay file holds
that byte. -/
def overlayView (b : CowBackend) (i : Nat) : Option Nat :=
  if b.filter (i / b.sectorSize) then
    match b.cache (i / b.sectorSize) with
    | some cd => cd[i % b.sectorSize]?
    | none =>
      match b.overlay (i / b.sectorSize) with
      | some d => d[i % b.sectorSize]?
      | none => none
  else none

/-- The sector cache is consistent with the overlay files: every cached
sector holds exactly the contents of that sector's overlay file
(spec invariant I5, maintained by every read and write). -/
def CacheConsistent (b : CowBackend) : Prop :=
  ∀ k d, b.cache k = some d → b.overlay k = some d

end CowBackend

/-- State of the prefetch wrapper (`PrefetchBackend`, first iteration):
configuration, the sequential-detection state (`lastReadOffset`,
`lastReadLength`, `consecutiveReads`), and the single prefetch buffer with
its valid window `[prefetchStartOffset, prefetchEndOffset)`. -/
structure PrefetchBackend where
  sectorSize : Nat
  prefetchMultiplier : Nat
  maxConsecutiveReads : Nat
  lastReadOffset : Nat
  lastReadLength : Nat
  consecutiveReads : Nat
  prefetchBuffer : List Nat
  prefetchStartOffset : Nat
  prefetchEndOffset : Nat
  prefetchValid : Bool

namespace PrefetchBackend

/-- `NewPrefetchBackend`: the streak threshold defaults to 2 unless a
positive `maxConsecutiveReads` is supplied; the buffer starts invalid. -/
def NewPrefetchBackend (sectorSize prefetchMultiplier maxConsecutiveReads : Nat) :
    PrefetchBackend :=
  ⟨sectorSize, prefetchMultiplier,
   if 0 < maxConsecutiveReads then maxConsecutiveReads else 2,
   0, 0, 0, [], 0, 0, false⟩

/-- The sequential-detection step at the top of `PrefetchBackend.ReadAt`
(first iteration, lines guarded by the write lock): classify the read,
update the streak, and always record the current offset and length.
Returns the updated state, `isSequential`, and `shouldPrefetch`. -/
def detectSequential (s : PrefetchBackend) (off len : Nat) :
    PrefetchBackend × Bool × Bool :=
  let upd :=
    if s.lastReadOffset ≠ 0 ∧ s.lastReadLength ≠ 0 then
      if off = s.lastReadOffset + s.lastReadLength then
        let streak :=
          if s.consecutiveReads < s.maxConsecutiveReads then s.consecutiveReads + 1
          else s.consecutiveReads
        (({ s with consecutiveReads := streak } : PrefetchBackend), true,
         decide (s.maxConsecutiveReads ≤ streak))
      else (({ s with consecutiveReads := 0 } : PrefetchBackend), false, false)
    else (s, false, false)
  ({ upd.1 with lastReadOffset := off, lastReadLength := len }, upd.2)

/-- Result of `PrefetchBackend.ReadAt`. -/
structure PrefetchReadResult where
  backend : PrefetchBackend
  buf : List Nat
  count : Nat
  eof : Bool

/-- `PrefetchBackend.ReadAt` (first iteration), with the inner backend
modelled as a pure byte store `inner` (the deterministic-inner-backend
assumption): sequential detection, then full cache hit, partial cache hit
(case 1: head of the request in the buffer; case 2: tail in the buffer),
triggered prefetch, or plain delegation. -/
def ReadAt (inner : List Nat) (s : PrefetchBackend) (p : List Nat) (off : Nat) :
    PrefetchReadResult :=
  if p.length = 0 then ⟨s, p, 0, false⟩
  else
    let d := detectSequential s off p.length
    let s1 := d.1
    let isSeq := d.2.1
    let shouldPrefetch := d.2.2
    if s1.prefetchValid = true ∧ s1.prefetchStartOffset ≤ off
        ∧ off + p.length ≤ s1.prefetchEndOffset then
      let p1 := splice p 0
        ((s1.prefetchBuffer.drop (off - s1.prefetchStartOffset)).take p.length)
      let s2 : PrefetchBackend :=
        { s1 with consecutiveReads :=
            if isSeq then
              (if s1.consecutiveReads < s1.maxConsecutiveReads then s1.consecutiveReads + 1
               else s1.consecutiveReads)
            else s1.consecutiveReads }
      ⟨s2, p1, p.length, false⟩
    else
      if s1.prefetchValid = true ∧
          ((s1.prefetchStartOffset ≤ off ∧ off < s1.prefetchEndOffset
             ∧ s1.prefetchEndOffset < off + p.length) ∨
           (off < s1.prefetchStartOffset ∧ s1.prefetchStartOffset < off + p.length
             ∧ off + p.length ≤ s1.prefetchEndOffset)) then
        let partialStart :=
          if s1.prefetchStartOffset ≤ off then off else s1.prefetchStartOffset
        let partialEnd :=
          if s1.prefetchStartOffset ≤ off then s1.prefetchEndOffset else off + p.length
        let hitLength := partialEnd - partialStart
        let hitOffset := partialStart - off
        let p1 := splice p hitOffset
          ((s1.prefetchBuffer.drop (partialStart - s1.prefetchStartOffset)).take hitLength)
        let p2 :=
          if 0 < hitOffset then splice p1 0 ((inner.drop off).take hitOffset) else p1
        let p3 :=
          if hitOffset + hitLength < p.length then
            splice p2 (hitOffset + hitLength)
              ((inner.drop (off + hitOffset + hitLength)).take
                (p.length - (hitOffset + hitLength)))
          else p2
        ⟨s1, p3, p.length, false⟩
      else if shouldPrefetch then
        let prefetchSize := s1.sectorSize * s1.prefetchMultiplier
        let bufAlloc :=
          if s1.prefetchBuffer.length < prefetchSize then List.replicate prefetchSize 0
          else s1.prefetchBuffer
        let bytes := (inner.drop off).take prefetchSize
        let n := bytes.length
        let filled := splice bufAlloc 0 bytes
        let s2 := { s1 with
          prefetchBuffer := filled
          prefetchStartOffset := off
          prefetchEndOffset := off + n
          prefetchValid := true }
        if p.length ≤ n then ⟨s2, splice p 0 (filled.take p.length), p.length, false⟩
        else ⟨s2, splice p 0 (filled.take n), n, true⟩
      else
        let r := baseReadAt inner p off
        ⟨s1, r.buf, r.count, r.eof⟩

/-- Run a sequence of reads through the prefetch wrapper, each into a
zeroed caller buffer, threading the wrapper state. -/
def runPrefetch (inner : List Nat) :
    PrefetchBackend → List (Nat × Nat) → List (List Nat × Nat × Bool)
  | _, [] => []
  | s, (off, len) :: rest =>
    let r := ReadAt inner s (List.replicate len 0) off
    (r.buf, r.count, r.eof) :: runPrefetch inner r.backend rest

/-- Run the same sequence of reads directly against the inner backend. -/
def runDirect (inner : List Nat) : List (Nat × Nat) → List (List Nat × Nat × Bool)
  | [] => []
  | (off, len) :: rest =>
    let r := baseReadAt inner (List.replicate len 0) off
    (r.buf, r.count, r.eof) :: runDirect inner rest

end PrefetchBackend

namespace PrefetchBackend

/-- The prefetch buffer, when valid, mirrors the inner backend over its
window `[prefetchStartOffset, prefetchEndOffset)`. -/
def BufferInv (inner : List Nat) (s : PrefetchBackend) : Prop :=
  s.prefetchValid = true →
    s.prefetchStartOffset ≤ s.prefetchEndOffset ∧
    s.prefetchEndOffset ≤ inner.length ∧
    s.prefetchEndOffset - s.prefetchStartOffset ≤ s.prefetchBuffer.length ∧
    ∀ j, j < s.prefetchEndOffset - s.prefetchStartOffset →
      s.prefetchBuffer[j]? = inner[s.prefetchStartOffset + j]?

end PrefetchBackend

/-- A collected overlay sector file, as parsed by `walkSectorFiles` from a
filename `<offset-hex-16>_<size-hex-8>.sector`: `offset` is the sector
index, `size` the sector size, and `data` the contents of the file on
disk. -/
structure SectorInfo where
  offset : Nat
  size : Nat
  data : List Nat

/-- One iteration of the apply loop of `patchSectors` in non-dry-run mode:
seek the target device to `offset * size + deviceOffset` and copy `size`
bytes from the sector file there (`io.CopyN` writes the bytes it reads, so
a short file contributes its whole contents before the error is logged and
the sector is skipped). -/
def applySector (target : List Nat) (deviceOffset : Nat) (s : SectorInfo) :
    List Nat :=
  splice target (s.offset * s.size + deviceOffset) (s.data.take s.size)

/-- The apply loop of `patchSectors` over the collected sector files: in
dry-run mode the device is opened read-only and nothing is written;
otherwise each sector is applied in turn. -/
def patchSectorsRun (target : List Nat) (deviceOffset : Nat) (dryRun : Bool) :
    List SectorInfo → List Nat
  | [] => target
  | s :: rest =>
    patchSectorsRun (if dryRun then target else applySector target deviceOffset s)
      deviceOffset dryRun rest


theorem splice_length (buf : List Nat) (pos : Nat) (data : List Nat) :
    (splice buf pos data).length = buf.length := by
  simp only [splice, List.length_append, List.length_take, List.length_drop]
  omega

theorem dropTake_getElem? (l : List Nat) (a n i : Nat) :
    ((l.drop a).take n)[i]? = if i < n then l[a + i]? else none := by
  by_cases h : i < n
  · rw [List.getElem?_take_of_lt h, List.getElem?_drop, if_pos h]
  · rw [List.getElem?_take_eq_none (by omega), if_neg h]

theorem dropTake_length (l : List Nat) (a n : Nat) :
    ((l.drop a).take n).length = min n (l.length - a) := by
  simp [List.length_take, List.length_drop]

theorem splice_getElem? (buf : List Nat) (pos : Nat) (data : List Nat) (i : Nat) :
    (splice buf pos data)[i]? =
      if pos ≤ i ∧ i < pos + data.length ∧ i < buf.length then data[i - pos]?
      else buf[i]? := by
  by_cases hib : i < buf.length
  · by_cases hge : pos ≤ i
    · by_cases hlt : i < pos + data.length
      · rw [if_pos ⟨hge, hlt, hib⟩]
        unfold splice
        rw [List.getElem?_append_left
              (by simp only [List.length_append, List.length_take]; omega),
            List.getElem?_append_right
              (by simp only [List.length_take]; omega)]
        have hmin : min pos buf.length = pos := by omega
        rw [List.length_take, hmin, List.getElem?_take_of_lt (by omega)]
      · rw [if_neg (by omega)]
        unfold splice
        have hABlen :
            ((buf.take pos) ++ data.take (buf.length - pos)).length = pos + data.length := by
          simp only [List.length_append, List.length_take]; omega
        rw [List.getElem?_append_right (by rw [hABlen]; omega), hABlen,
            List.getElem?_drop]
        congr 1
        omega
    · rw [if_neg (by omega)]
      unfold splice
      rw [List.getElem?_append_left
            (by simp only [List.length_append, List.length_take]; omega),
          List.getElem?_append_left (by simp only [List.length_take]; omega),
          List.getElem?_take_of_lt (by omega)]
  · rw [List.getElem?_eq_none (by rw [splice_length]; omega), if_neg (by omega),
        List.getElem?_eq_none (by omega)]

theorem splice_zero_of_length_eq (buf : List Nat) (data : List Nat)
    (h : data.length = buf.length) : splice buf 0 data = data := by
  apply List.ext_getElem?
  intro n
  rw [splice_getElem?]
  by_cases hn : n < buf.length
  · rw [if_pos (by omega), Nat.sub_zero]
  · rw [if_neg (by omega), List.getElem?_eq_none (by omega),
        List.getElem?_eq_none (by omega)]

namespace CowBackend

theorem seedSector_fst_length (b : CowBackend) (k : Nat) :
    (seedSector b k).1.length = b.sectorSize := by
  unfold seedSector
  cases b.overlay k with
  | some d => simp [splice_length]
  | none =>
    cases b.cache k with
    | some c => simp [splice_length]
    | none => simp [splice_length]

theorem seedSector_calls_not_write (b : CowBackend) (k : Nat) :
    ∀ c ∈ (seedSector b k).2, c.isWrite = false := by
  unfold seedSector
  cases b.overlay k with
  | some d => simp
  | none =>
    cases b.cache k with
    | some c => simp
    | none => simp [BaseCall.isWrite]

theorem seedSector_congr (b b' : CowBackend) (k : Nat)
    (hov : b'.overlay k = b.overlay k) (hca : b'.cache k = b.cache k)
    (hba : b'.base = b.base) (hsz : b'.sectorSize = b.sectorSize) :
    seedSector b' k = seedSector b k := by
  unfold seedSector
  rw [hov, hca, hba, hsz]


theorem sectorWriteContent_length (b : CowBackend) (rem : List Nat) (cur k : Nat) :
    (sectorWriteContent b rem cur k).length = b.sectorSize := by
  unfold sectorWriteContent
  rw [splice_length, seedSector_fst_length]

end CowBackend

namespace CowBackend

theorem writeLoop_spec (ss : Nat) (hss : 0 < ss) :
    ∀ (m : Nat), ∀ (a : Nat) (b : CowBackend) (rem : List Nat) (cur : Nat),
      b.sectorSize = ss → rem ≠ [] → cur / ss = a →
      (cur + rem.length - 1) / ss = a + m →
      ((writeLoop b (List.range' a (m + 1)) rem cur).2.1 = rem.length ∧
       (writeLoop b (List.range' a (m + 1)) rem cur).1.base = b.base ∧
       (writeLoop b (List.range' a (m + 1)) rem cur).1.sectorSize = ss ∧
       (∀ c ∈ (writeLoop b (List.range' a (m + 1)) rem cur).2.2, c.isWrite = false)) ∧
      ∀ k,
        ((writeLoop b (List.range' a (m + 1)) rem cur).1.overlay k,
         (writeLoop b (List.range' a (m + 1)) rem cur).1.cache k,
         (writeLoop b (List.range' a (m + 1)) rem cur).1.filter k) =
          if a ≤ k ∧ k ≤ a + m then
            (some (sectorWriteContent b rem cur k),
             some (sectorWriteContent b rem cur k), true)
          else (b.overlay k, b.cache k, b.filter k) := by
  intro m
  induction m with
  | zero =>
    intro a b rem cur hbss hrem hcur hend
    simp only [Nat.add_zero] at hend
    have hdm := Nat.div_add_mod cur ss
    rw [hcur] at hdm
    have hml : cur % ss < ss := Nat.mod_lt _ hss
    have hlen1 : 0 < rem.length := List.length_pos.mpr hrem
    have hdm2 := Nat.div_add_mod (cur + rem.length - 1) ss
    rw [hend] at hdm2
    have hm2 : (cur + rem.length - 1) % ss < ss := Nat.mod_lt _ hss
    have hc1 : a * ss = ss * a := Nat.mul_comm a ss
    have hc2 : (a + 1) * ss = a * ss + ss := Nat.succ_mul a ss
    have hwl : min (ss - cur % ss) rem.length = rem.length := by omega
    have hcontent : sectorWriteContent b rem cur a =
        splice (seedSector b a).1 (cur % ss) rem := by
      simp only [sectorWriteContent, hbss]
      rw [show max (a * ss) cur = cur from by omega,
          show min ((a + 1) * ss) (cur + rem.length) = cur + rem.length from by omega,
          Nat.sub_self, List.drop_zero,
          show cur + rem.length - cur = rem.length from by omega,
          List.take_length,
          show cur - a * ss = cur % ss from by omega]
    simp only [List.range'_one, writeLoop, writeSector, hbss, hwl, List.take_length]
    refine ⟨⟨by simp, by simp, by simp, ?_⟩, ?_⟩
    · simp only [List.append_nil]
      exact seedSector_calls_not_write b a
    · intro k
      by_cases hk : a ≤ k ∧ k ≤ a + 0
      · have hka : k = a := by omega
        subst hka
        rw [if_pos hk]
        simp [hcontent]
      · have hka : ¬ k = a := by omega
        rw [if_neg hk]
        simp [hka]
  | succ m ih =>
    intro a b rem cur hbss hrem hcur hend
    have hdm := Nat.div_add_mod cur ss
    rw [hcur] at hdm
    have hml : cur % ss < ss := Nat.mod_lt _ hss
    have hlen1 : 0 < rem.length := List.length_pos.mpr hrem
    have hdm2 := Nat.div_add_mod (cur + rem.length - 1) ss
    rw [hend] at hdm2
    have hm2 : (cur + rem.length - 1) % ss < ss := Nat.mod_lt _ hss
    have hc1 : a * ss = ss * a := Nat.mul_comm a ss
    have hc2 : (a + 1) * ss = a * ss + ss := Nat.succ_mul a ss
    have hc3 : ss * (a + (m + 1)) = ss * a + ss * (m + 1) := Nat.mul_add ss a (m + 1)
    have hc4 : ss * 1 ≤ ss * (m + 1) := Nat.mul_le_mul_left ss (by omega)
    have hc5 : ss * 1 = ss := Nat.mul_one ss
    have hwl : min (ss - cur % ss) rem.length = ss - cur % ss := by omega
    have htk : (rem.take (ss - cur % ss)).length = ss - cur % ss := by
      rw [List.length_take]; omega
    have hld : (rem.drop (ss - cur % ss)).length = rem.length - (ss - cur % ss) :=
      List.length_drop _ _
    have hrem' : rem.drop (ss - cur % ss) ≠ [] := by
      apply List.ne_nil_of_length_pos
      omega
    have hcur'eq : cur + (ss - cur % ss) = ss * (a + 1) := by
      rw [Nat.mul_succ]; omega
    have hcur' : (cur + (ss - cur % ss)) / ss = a + 1 := by
      rw [hcur'eq]
      exact Nat.mul_div_cancel_left (a + 1) hss
    have hend' : (cur + (ss - cur % ss) + (rem.drop (ss - cur % ss)).length - 1) / ss
        = (a + 1) + m := by
      rw [show cur + (ss - cur % ss) + (rem.drop (ss - cur % ss)).length = cur + rem.length
            from by omega]
      rw [hend]; omega
    rw [List.range'_succ]
    obtain ⟨⟨ihcount, ihbase, ihsize, ihcalls⟩, ihk⟩ :=
      ih (a + 1)
        { base := b.base, sectorSize := ss,
          overlay := fun k =>
            if k = a then
              some (splice (seedSector b a).1 (cur % ss) (rem.take (ss - cur % ss)))
            else b.overlay k,
          filter := fun k => if k = a then true else b.filter k,
          cache := fun k =>
            if k = a then
              some (splice (seedSector b a).1 (cur % ss) (rem.take (ss - cur % ss)))
            else b.cache k }
        (rem.drop (ss - cur % ss)) (cur + (ss - cur % ss)) rfl hrem' hcur' hend'
    generalize hR : List.range' (a + 1) (m + 1) = R at ihcount ihbase ihsize ihcalls ihk ⊢
    simp only [writeLoop, writeSector, hbss, hwl, htk]
    set W := splice (seedSector b a).1 (cur % ss) (rem.take (ss - cur % ss)) with hW
    set B1 : CowBackend :=
      { base := b.base, sectorSize := ss,
        overlay := fun k => if k = a then some W else b.overlay k,
        filter := fun k => if k = a then true else b.filter k,
        cache := fun k => if k = a then some W else b.cache k } with hB1
    refine ⟨⟨?_, ?_, ?_, ?_⟩, ?_⟩
    · rw [ihcount]; omega
    · rw [ihbase, hB1]
    · rw [ihsize]
    · intro c hc
      rw [List.mem_append] at hc
      cases hc with
      | inl h => exact seedSector_calls_not_write b a c h
      | inr h => exact ihcalls c h
    · intro k
      have hkk := ihk k
      by_cases hk : a ≤ k ∧ k ≤ a + (m + 1)
      · rw [if_pos hk]
        by_cases hka : k = a
        · rw [if_neg (by omega)] at hkk
          rw [hkk, hka]
          have hcontent : sectorWriteContent b rem cur a =
              splice (seedSector b a).1 (cur % ss) (rem.take (ss - cur % ss)) := by
            simp only [sectorWriteContent, hbss]
            rw [show max (a * ss) cur = cur from by omega,
                show min ((a + 1) * ss) (cur + rem.length) = (a + 1) * ss from by omega,
                Nat.sub_self, List.drop_zero,
                show (a + 1) * ss - cur = ss - cur % ss from by omega,
                show cur - a * ss = cur % ss from by omega]
          rw [hB1]
          simp [hcontent, hW]
        · have hk1 : a + 1 ≤ k ∧ k ≤ (a + 1) + m := by omega
          rw [if_pos hk1] at hkk
          rw [hkk]
          have hkss : (a + 1) * ss ≤ k * ss := Nat.mul_le_mul_right ss (by omega)
          have hov : B1.overlay k = b.overlay k := by rw [hB1]; simp [hka]
          have hca : B1.cache k = b.cache k := by rw [hB1]; simp [hka]
          have hbase : B1.base = b.base := by rw [hB1]
          have hsz : B1.sectorSize = b.sectorSize := by rw [hB1, hbss]
          have hseq : sectorWriteContent B1 (rem.drop (ss - cur % ss))
              (cur + (ss - cur % ss)) k = sectorWriteContent b rem cur k := by
            simp only [sectorWriteContent, hsz, hbss, hld]
            rw [seedSector_congr b B1 k hov hca hbase hsz]
            rw [show max (k * ss) (cur + (ss - cur % ss)) = k * ss from by omega,
                show max (k * ss) cur = k * ss from by omega,
                Nat.sub_self, List.drop_drop,
                show ss - cur % ss + (k * ss - (cur + (ss - cur % ss))) = k * ss - cur
                  from by omega,
                show cur + (ss - cur % ss) + (rem.length - (ss - cur % ss)) = cur + rem.length
                  from by omega]
          rw [hseq]
      · rw [if_neg hk]
        rw [if_neg (by omega)] at hkk
        rw [hkk, hB1]
        have hka : ¬ k = a := by omega
        simp [hka]

end CowBackend

namespace CowBackend

theorem writeLoop_frame :
    ∀ (sectors : List Nat) (b : CowBackend) (rem : List Nat) (cur : Nat),
      (writeLoop b sectors rem cur).1.base = b.base ∧
      (writeLoop b sectors rem cur).1.sectorSize = b.sectorSize ∧
      ∀ c ∈ (writeLoop b sectors rem cur).2.2, c.isWrite = false := by
  intro sectors
  induction sectors with
  | nil => intro b rem cur; simp [writeLoop]
  | cons sector rest ih =>
    intro b rem cur
    simp only [writeLoop, writeSector]
    obtain ⟨h1, h2, h3⟩ := ih
      { b with
          filter := fun k => if k = sector then true else b.filter k,
          cache := fun k =>
            if k = sector then
              some (splice (seedSector b sector).1 (cur % b.sectorSize)
                (rem.take (min (b.sectorSize - cur % b.sectorSize) rem.length)))
            else b.cache k,
          overlay := fun k =>
            if k = sector then
              some (splice (seedSector b sector).1 (cur % b.sectorSize)
                (rem.take (min (b.sectorSize - cur % b.sectorSize) rem.length)))
            else b.overlay k }
      (rem.drop (rem.take (min (b.sectorSize - cur % b.sectorSize) rem.length)).length)
      (cur + (rem.take (min (b.sectorSize - cur % b.sectorSize) rem.length)).length)
    refine ⟨by rw [h1], by rw [h2], ?_⟩
    intro c hc
    rw [List.mem_append] at hc
    cases hc with
    | inl h => exact seedSector_calls_not_write b sector c h
    | inr h => exact h3 c h

theorem readBlackSectorToBuffer_frame (b : CowBackend) (sector bufOffset length sectorOffset : Nat)
    (buf : List Nat) :
    (readBlackSectorToBuffer b sector bufOffset length sectorOffset buf).1.base = b.base ∧
    (readBlackSectorToBuffer b sector bufOffset length sectorOffset buf).1.sectorSize
      = b.sectorSize ∧
    (readBlackSectorToBuffer b sector bufOffset length sectorOffset buf).1.overlay = b.overlay ∧
    (readBlackSectorToBuffer b sector bufOffset length sectorOffset buf).1.filter = b.filter ∧
    (∀ k, k ≠ sector →
      (readBlackSectorToBuffer b sector bufOffset length sectorOffset buf).1.cache k
        = b.cache k) ∧
    (readBlackSectorToBuffer b sector bufOffset length sectorOffset buf).2.length
      = buf.length := by
  unfold readBlackSectorToBuffer
  cases hc : b.cache sector with
  | some c => simp [splice_length]
  | none =>
    cases ho : b.overlay sector with
    | some d => simp [splice_length]; intro k hk; simp [hk]
    | none => simp

theorem readSectorStep_frame (b : CowBackend) (sector : Nat) (buf : List Nat) (off : Nat) :
    (readSectorStep b sector buf off).1.base = b.base ∧
    (readSectorStep b sector buf off).1.sectorSize = b.sectorSize ∧
    (readSectorStep b sector buf off).1.overlay = b.overlay ∧
    (readSectorStep b sector buf off).1.filter = b.filter ∧
    (∀ k, k ≠ sector → (readSectorStep b sector buf off).1.cache k = b.cache k) ∧
    (readSectorStep b sector buf off).2.length = buf.length := by
  unfold readSectorStep
  by_cases hf : b.filter sector
  · rw [if_pos hf]
    by_cases hg : max (sector * b.sectorSize) off
        ≤ min (sector * b.sectorSize + b.sectorSize - 1) (off + buf.length - 1)
    · rw [if_pos hg]
      exact readBlackSectorToBuffer_frame b sector _ _ _ buf
    · rw [if_neg hg]
      simp
  · rw [if_neg hf]
    simp

theorem readLoop_frame :
    ∀ (sectors : List Nat) (b : CowBackend) (buf : List Nat) (off : Nat),
      (readLoop b sectors buf off).1.base = b.base ∧
      (readLoop b sectors buf off).1.sectorSize = b.sectorSize ∧
      (readLoop b sectors buf off).1.overlay = b.overlay ∧
      (readLoop b sectors buf off).1.filter = b.filter ∧
      (readLoop b sectors buf off).2.length = buf.length := by
  intro sectors
  induction sectors with
  | nil => intro b buf off; simp [readLoop]
  | cons sector rest ih =>
    intro b buf off
    simp only [readLoop]
    obtain ⟨s1, s2, s3, s4, s5, s6⟩ := readSectorStep_frame b sector buf off
    obtain ⟨i1, i2, i3, i4, i5⟩ :=
      ih (readSectorStep b sector buf off).1 (readSectorStep b sector buf off).2 off
    exact ⟨by rw [i1, s1], by rw [i2, s2], by rw [i3, s3], by rw [i4, s4], by rw [i5, s6]⟩

theorem WriteAt_spec (b : CowBackend) (p : List Nat) (off : Nat)
    (hss : 0 < b.sectorSize) (hp : p ≠ []) :
    (WriteAt b p off).count = p.length ∧
    (WriteAt b p off).backend.base = b.base ∧
    (WriteAt b p off).backend.sectorSize = b.sectorSize ∧
    (∀ c ∈ (WriteAt b p off).calls, c.isWrite = false) ∧
    ∀ k,
      ((WriteAt b p off).backend.overlay k,
       (WriteAt b p off).backend.cache k,
       (WriteAt b p off).backend.filter k) =
        if off / b.sectorSize ≤ k ∧ k ≤ (off + p.length - 1) / b.sectorSize then
          (some (sectorWriteContent b p off k), some (sectorWriteContent b p off k), true)
        else (b.overlay k, b.cache k, b.filter k) := by
  have hlen : 0 < p.length := List.length_pos.mpr hp
  have hmono : off / b.sectorSize ≤ (off + p.length - 1) / b.sectorSize :=
    Nat.div_le_div_right (by omega)
  have hrange : (off + p.length - 1) / b.sectorSize + 1 - off / b.sectorSize =
      ((off + p.length - 1) / b.sectorSize - off / b.sectorSize) + 1 := by omega
  have hend : (off + p.length - 1) / b.sectorSize =
      off / b.sectorSize +
        ((off + p.length - 1) / b.sectorSize - off / b.sectorSize) := by omega
  obtain ⟨⟨w1, w2, w3, w4⟩, wk⟩ :=
    writeLoop_spec b.sectorSize hss
      ((off + p.length - 1) / b.sectorSize - off / b.sectorSize)
      (off / b.sectorSize) b p off rfl hp rfl hend
  simp only [WriteAt]
  rw [if_neg (by omega), hrange]
  refine ⟨w1, w2, w3, w4, ?_⟩
  intro k
  have hkk := wk k
  rw [← hend] at hkk
  exact hkk

end CowBackend

namespace CowBackend


theorem readSectorStep_getElem? (b : CowBackend) (sector : Nat) (buf : List Nat)
    (off j : Nat) (hss : 0 < b.sectorSize) :
    (readSectorStep b sector buf off).2[j]? =
      if (off + j) / b.sectorSize = sector ∧ j < buf.length then
        (match overlayView b (off + j) with
         | some v => some v
         | none => buf[j]?)
      else buf[j]? := by
  have hdm := Nat.div_add_mod (off + j) b.sectorSize
  have hml : (off + j) % b.sectorSize < b.sectorSize := Nat.mod_lt _ hss
  have hcm : sector * b.sectorSize = b.sectorSize * sector := Nat.mul_comm sector b.sectorSize
  by_cases hf : b.filter sector
  · by_cases hq : (off + j) / b.sectorSize = sector
    · have hsec : b.sectorSize * sector + (off + j) % b.sectorSize = off + j := by
        rw [← hq]; exact hdm
      by_cases hj : j < buf.length
      · rw [if_pos ⟨hq, hj⟩]
        unfold readSectorStep
        rw [if_pos hf, if_pos (by omega)]
        unfold overlayView
        rw [hq, if_pos hf]
        unfold readBlackSectorToBuffer
        cases hc : b.cache sector with
        | some cd =>
          rw [splice_getElem?, dropTake_getElem?]
          rw [if_pos (show j - (max (sector * b.sectorSize) off - off)
                < min (sector * b.sectorSize + b.sectorSize - 1) (off + buf.length - 1)
                  - max (sector * b.sectorSize) off + 1 from by omega)]
          rw [show max (sector * b.sectorSize) off - sector * b.sectorSize
                + (j - (max (sector * b.sectorSize) off - off)) = (off + j) % b.sectorSize
              from by omega]
          cases hcv : cd[(off + j) % b.sectorSize]? with
          | none =>
            have hclen : cd.length ≤ (off + j) % b.sectorSize :=
              List.getElem?_eq_none_iff.mp hcv
            rw [if_neg (by
              rw [dropTake_length]
              omega)]
            simp [hcv]
          | some v =>
            have hclen : (off + j) % b.sectorSize < cd.length := by
              by_contra hcon
              rw [List.getElem?_eq_none (by omega)] at hcv
              cases hcv
            rw [if_pos (by
              refine ⟨by omega, ?_, by omega⟩
              rw [dropTake_length]
              omega)]
            simp [hcv]
        | none =>
          cases ho : b.overlay sector with
          | some d =>
            rw [splice_getElem?, dropTake_getElem?]
            rw [if_pos (show j - (max (sector * b.sectorSize) off - off)
                  < min (sector * b.sectorSize + b.sectorSize - 1) (off + buf.length - 1)
                    - max (sector * b.sectorSize) off + 1 from by omega)]
            rw [show max (sector * b.sectorSize) off - sector * b.sectorSize
                  + (j - (max (sector * b.sectorSize) off - off)) = (off + j) % b.sectorSize
                from by omega]
            cases hcv : d[(off + j) % b.sectorSize]? with
            | none =>
              have hclen : d.length ≤ (off + j) % b.sectorSize :=
                List.getElem?_eq_none_iff.mp hcv
              rw [if_neg (by
                rw [dropTake_length]
                omega)]
              simp [hcv]
            | some v =>
              have hclen : (off + j) % b.sectorSize < d.length := by
                by_contra hcon
                rw [List.getElem?_eq_none (by omega)] at hcv
                cases hcv
              rw [if_pos (by
                refine ⟨by omega, ?_, by omega⟩
                rw [dropTake_length]
                omega)]
              simp [hcv]
          | none => rfl
      · rw [if_neg (by omega)]
        unfold readSectorStep
        rw [if_pos hf]
        by_cases hg : max (sector * b.sectorSize) off
            ≤ min (sector * b.sectorSize + b.sectorSize - 1) (off + buf.length - 1)
        · rw [if_pos hg]
          unfold readBlackSectorToBuffer
          cases hc : b.cache sector with
          | some cd =>
            rw [splice_getElem?,
                if_neg (by rw [dropTake_length]; omega)]
          | none =>
            cases ho : b.overlay sector with
            | some d =>
              rw [splice_getElem?,
                  if_neg (by rw [dropTake_length]; omega)]
            | none => rfl
        · rw [if_neg hg]
    · have hnot : ¬ (sector * b.sectorSize ≤ off + j
          ∧ off + j < sector * b.sectorSize + b.sectorSize) := by
        intro hcon
        exact hq (Nat.div_eq_of_lt_le hcon.1 (by rw [Nat.succ_mul]; omega))
      rw [if_neg (by intro hcon; exact hq hcon.1)]
      unfold readSectorStep
      rw [if_pos hf]
      by_cases hg : max (sector * b.sectorSize) off
          ≤ min (sector * b.sectorSize + b.sectorSize - 1) (off + buf.length - 1)
      · rw [if_pos hg]
        unfold readBlackSectorToBuffer
        cases hc : b.cache sector with
        | some cd =>
          rw [splice_getElem?,
              if_neg (by rw [dropTake_length]; omega)]
        | none =>
          cases ho : b.overlay sector with
          | some d =>
            rw [splice_getElem?,
                if_neg (by rw [dropTake_length]; omega)]
          | none => rfl
      · rw [if_neg hg]
  · unfold readSectorStep
    rw [if_neg hf]
    by_cases hcond : (off + j) / b.sectorSize = sector ∧ j < buf.length
    · rw [if_pos hcond]
      unfold overlayView
      rw [hcond.1, if_neg hf]
    · rw [if_neg hcond]

end CowBackend

namespace CowBackend

theorem readLoop_getElem? :
    ∀ (m a : Nat) (b : CowBackend) (buf : List Nat) (off : Nat), 0 < b.sectorSize →
      ∀ j,
      ((readLoop b (List.range' a m) buf off).2)[j]? =
        if a ≤ (off + j) / b.sectorSize ∧ (off + j) / b.sectorSize < a + m
            ∧ j < buf.length then
          (match overlayView b (off + j) with
           | some v => some v
           | none => buf[j]?)
        else buf[j]? := by
  intro m
  induction m with
  | zero =>
    intro a b buf off hss j
    simp only [List.range'_zero, readLoop]
    rw [if_neg (by omega)]
  | succ m ih =>
    intro a b buf off hss j
    rw [List.range'_succ]
    simp only [readLoop]
    obtain ⟨s1, s2, s3, s4, s5, s6⟩ := readSectorStep_frame b a buf off
    have hstep := readSectorStep_getElem? b a buf off j hss
    have ihj := ih (a + 1) (readSectorStep b a buf off).1 (readSectorStep b a buf off).2 off
      (by rw [s2]; exact hss) j
    rw [ihj, s2, s6]
    have hview : (off + j) / b.sectorSize ≠ a →
        overlayView (readSectorStep b a buf off).1 (off + j) = overlayView b (off + j) := by
      intro hia
      unfold overlayView
      rw [s2, s3, s4, s5 _ hia]
    by_cases h1 : (off + j) / b.sectorSize = a
    · rw [if_neg (by omega), hstep]
      by_cases hj : j < buf.length
      · rw [if_pos ⟨h1, hj⟩, if_pos (by omega)]
      · rw [if_neg (by omega), if_neg (by omega)]
    · by_cases h2 : a + 1 ≤ (off + j) / b.sectorSize
          ∧ (off + j) / b.sectorSize < a + 1 + m ∧ j < buf.length
      · rw [if_pos h2, if_pos (by omega), hview h1, hstep, if_neg (by omega)]
      · rw [if_neg h2, if_neg (by omega), hstep, if_neg (by omega)]

theorem ReadAt_spec (b : CowBackend) (p : List Nat) (off : Nat) (hss : 0 < b.sectorSize) :
    (ReadAt b p off).buf.length = p.length ∧
    (ReadAt b p off).count = min p.length (b.base.length - off) ∧
    (ReadAt b p off).eof = decide (min p.length (b.base.length - off) < p.length) ∧
    (ReadAt b p off).backend.base = b.base ∧
    (∀ c ∈ (ReadAt b p off).calls, c.isWrite = false) ∧
    ∀ j, j < p.length →
      (ReadAt b p off).buf[j]? =
        (match overlayView b (off + j) with
         | some v => some v
         | none => if j < b.base.length - off then b.base[off + j]? else p[j]?) := by
  by_cases hp : p.length = 0
  · unfold ReadAt
    rw [if_pos hp]
    refine ⟨rfl, by simp [hp], by simp [hp], rfl, by simp, ?_⟩
    intro j hj
    omega
  · unfold ReadAt
    rw [if_neg hp]
    dsimp only
    obtain ⟨l1, l2, l3, l4, l5⟩ :=
      readLoop_frame
        (List.range' (off / b.sectorSize)
          ((off + p.length - 1) / b.sectorSize + 1 - off / b.sectorSize))
        b (splice p 0 ((b.base.drop off).take p.length)) off
    refine ⟨?_, ?_, ?_, ?_, ?_, ?_⟩
    · rw [l5, splice_length]
    · rw [dropTake_length]
    · rw [dropTake_length]
    · exact l1
    · intro c hc
      simp only [List.mem_singleton] at hc
      rw [hc]
      rfl
    · intro j hj
      have hq1 : off / b.sectorSize ≤ (off + j) / b.sectorSize :=
        Nat.div_le_div_right (by omega)
      have hq2 : (off + j) / b.sectorSize ≤ (off + p.length - 1) / b.sectorSize :=
        Nat.div_le_div_right (by omega)
      have hloop := readLoop_getElem?
        ((off + p.length - 1) / b.sectorSize + 1 - off / b.sectorSize)
        (off / b.sectorSize) b (splice p 0 ((b.base.drop off).take p.length)) off hss j
      rw [hloop, if_pos ⟨hq1, by omega, by rw [splice_length]; omega⟩]
      have hbase : (splice p 0 ((b.base.drop off).take p.length))[j]? =
          if j < b.base.length - off then b.base[off + j]? else p[j]? := by
        rw [splice_getElem?, dropTake_length, dropTake_getElem?, Nat.sub_zero, if_pos hj]
        by_cases hb : j < b.base.length - off
        · rw [if_pos (by omega), if_pos hb]
        · rw [if_neg (by omega), if_neg hb]
      rw [hbase]

end CowBackend

namespace CowBackend

theorem withCache_base (b : CowBackend) (c : Nat → Option (List Nat)) :
    (withCache b c).base = b.base := rfl

theorem withCache_sectorSize (b : CowBackend) (c : Nat → Option (List Nat)) :
    (withCache b c).sectorSize = b.sectorSize := rfl

theorem withCache_overlay (b : CowBackend) (c : Nat → Option (List Nat)) :
    (withCache b c).overlay = b.overlay := rfl

theorem withCache_filter (b : CowBackend) (c : Nat → Option (List Nat)) :
    (withCache b c).filter = b.filter := rfl

theorem withCache_cache (b : CowBackend) (c : Nat → Option (List Nat)) :
    (withCache b c).cache = c := rfl


end CowBackend

theorem applyBaseCalls_of_no_writes :
    ∀ (calls : List BaseCall) (contents : List Nat),
      (∀ c ∈ calls, c.isWrite = false) → applyBaseCalls calls contents = contents := by
  intro calls
  induction calls with
  | nil => intro contents _; rfl
  | cons c rest ih =>
    intro contents h
    cases c with
    | write o d =>
      have := h (BaseCall.write o d) (by simp)
      simp [BaseCall.isWrite] at this
    | read o l => exact ih contents (fun x hx => h x (by simp [hx]))
    | size => exact ih contents (fun x hx => h x (by simp [hx]))
    | sync => exact ih contents (fun x hx => h x (by simp [hx]))

theorem baseReadAt_buf_length (base p : List Nat) (off : Nat) :
    (baseReadAt base p off).buf.length = p.length := by
  unfold baseReadAt
  rw [splice_length]

theorem baseReadAt_buf_getElem? (base p : List Nat) (off j : Nat) (hj : j < p.length) :
    (baseReadAt base p off).buf[j]? =
      if j < base.length - off then base[off + j]? else p[j]? := by
  unfold baseReadAt
  rw [splice_getElem?, dropTake_length, dropTake_getElem?, Nat.sub_zero, if_pos hj]
  by_cases hb : j < base.length - off
  · rw [if_pos (by omega), if_pos hb]
  · rw [if_neg (by omega), if_neg hb]

namespace CowBackend

/-- C2: Clean pass-through.  For a sector `k` with no overlay file (and a
cache consistent with the overlay files, hence no cache entry for `k`),
`CowBackend.ReadAt` over any byte range contained in sector `k` returns the
same bytes, the same byte count, and the same end-of-stream indication as a
direct `ReadAt` on the base backend — including when the bloom filter
reports a false positive for `k`. -/
theorem clean_sector_passthrough (b : CowBackend) (k off : Nat) (p : List Nat)
    (hss : 0 < b.sectorSize) (hcc : CacheConsistent b)
    (hover : b.overlay k = none)
    (hlo : k * b.sectorSize ≤ off) (hhi : off + p.length ≤ (k + 1) * b.sectorSize) :
    (ReadAt b p off).buf = (baseReadAt b.base p off).buf ∧
    (ReadAt b p off).count = (baseReadAt b.base p off).count ∧
    (ReadAt b p off).eof = (baseReadAt b.base p off).eof := by
  obtain ⟨r1, r2, r3, r4, r5, r6⟩ := ReadAt_spec b p off hss
  have hbc : (baseReadAt b.base p off).count = min p.length (b.base.length - off) := by
    unfold baseReadAt
    dsimp only
    rw [dropTake_length]
  have hbe : (baseReadAt b.base p off).eof
      = decide (min p.length (b.base.length - off) < p.length) := by
    unfold baseReadAt
    dsimp only
    rw [dropTake_length]
  refine ⟨?_, by rw [r2, hbc], by rw [r3, hbe]⟩
  apply List.ext_getElem?
  intro n
  by_cases hn : n < p.length
  · have hq : (off + n) / b.sectorSize = k :=
      Nat.div_eq_of_lt_le (by omega) (by omega)
    have hview : overlayView b (off + n) = none := by
      unfold overlayView
      rw [hq]
      by_cases hf : b.filter k
      · rw [if_pos hf]
        cases hc : b.cache k with
        | some cd =>
          have := hcc k cd hc
          rw [hover] at this
          cases this
        | none => rw [hover]
      · rw [if_neg hf]
    rw [r6 n hn, hview, baseReadAt_buf_getElem? b.base p off n hn]
  · rw [List.getElem?_eq_none (by omega), List.getElem?_eq_none (by rw [baseReadAt_buf_length]; omega)]

/-- C2 witness: a 2-sector zero base with sector size 512, a bloom-filter
false positive on sector 0 (filter reports it, no overlay file, empty
cache): reading 100 bytes at offset 200 through the COW layer equals the
direct base read. -/
theorem clean_sector_passthrough_witness :
    (0 < (512 : Nat)) ∧
    CacheConsistent ⟨List.replicate 1024 0, 512, fun _ => none, fun _ => true, fun _ => none⟩ ∧
    ((⟨List.replicate 1024 0, 512, fun _ => none, fun _ => true, fun _ => none⟩ :
        CowBackend).overlay 0 = none) ∧
    0 * 512 ≤ 200 ∧ 200 + (List.replicate 100 0).length ≤ (0 + 1) * 512 ∧
    ((ReadAt ⟨List.replicate 1024 0, 512, fun _ => none, fun _ => true, fun _ => none⟩
        (List.replicate 100 0) 200).buf
      = (baseReadAt (List.replicate 1024 0) (List.replicate 100 0) 200).buf ∧
     (ReadAt ⟨List.replicate 1024 0, 512, fun _ => none, fun _ => true, fun _ => none⟩
        (List.replicate 100 0) 200).count
      = (baseReadAt (List.replicate 1024 0) (List.replicate 100 0) 200).count ∧
     (ReadAt ⟨List.replicate 1024 0, 512, fun _ => none, fun _ => true, fun _ => none⟩
        (List.replicate 100 0) 200).eof
      = (baseReadAt (List.replicate 1024 0) (List.replicate 100 0) 200).eof) :=
  ⟨by decide, fun k d h => Option.noConfusion h, rfl, by decide, by simp,
   clean_sector_passthrough
     ⟨List.replicate 1024 0, 512, fun _ => none, fun _ => true, fun _ => none⟩
     0 200 (List.replicate 100 0) (by decide) (fun k d h => Option.noConfusion h) rfl
     (by decide) (by simp)⟩

/-- C6: Overlay file length invariant.  Every overlay sector file created
or replaced by a `CowBackend` write has length exactly `sectorSize`,
whatever the write's offset alignment and length. -/
theorem overlay_file_length (b : CowBackend) (p : List Nat) (off k : Nat)
    (hss : 0 < b.sectorSize) :
    (WriteAt b p off).backend.overlay k = b.overlay k ∨
    ∃ d, (WriteAt b p off).backend.overlay k = some d ∧ d.length = b.sectorSize := by
  by_cases hp : p = []
  · left
    subst hp
    rfl
  · obtain ⟨w1, w2, w3, w4, wk⟩ := WriteAt_spec b p off hss hp
    have hkk := wk k
    by_cases hk : off / b.sectorSize ≤ k ∧ k ≤ (off + p.length - 1) / b.sectorSize
    · right
      rw [if_pos hk] at hkk
      simp only [Prod.mk.injEq] at hkk
      exact ⟨sectorWriteContent b p off k, hkk.1, sectorWriteContent_length b p off k⟩
    · left
      rw [if_neg hk] at hkk
      simp only [Prod.mk.injEq] at hkk
      exact hkk.1

/-- C6 witness: a sub-sector write of 3 bytes at offset 514 with sector
size 512 leaves every overlay file either untouched or exactly 512 bytes
long. -/
theorem overlay_file_length_witness :
    (0 < (512 : Nat)) ∧
    ((WriteAt ⟨List.replicate 1024 9, 512, fun _ => none, fun _ => false, fun _ => none⟩
        [1, 2, 3] 514).backend.overlay 1
      = (fun _ => none : Nat → Option (List Nat)) 1 ∨
     ∃ d, (WriteAt ⟨List.replicate 1024 9, 512, fun _ => none, fun _ => false, fun _ => none⟩
        [1, 2, 3] 514).backend.overlay 1 = some d ∧ d.length = 512) :=
  ⟨by decide,
   overlay_file_length ⟨List.replicate 1024 9, 512, fun _ => none, fun _ => false, fun _ => none⟩
     [1, 2, 3] 514 1 (by decide)⟩

/-- C8: Base immutability frame property.  No `CowBackend` operation ever
issues a write to the base backend: every base call recorded by `ReadAt`,
`WriteAt`, `Size`, `Sync` (both iterations), and `Close` is a non-write,
replaying any of those call traces against the base contents leaves them
unchanged, and the backend's view of the base contents is unchanged. -/
theorem base_readonly :
    ∀ (b : CowBackend) (p : List Nat) (off : Nat) (r : Option String),
      ((∀ c ∈ (ReadAt b p off).calls, c.isWrite = false) ∧
       applyBaseCalls (ReadAt b p off).calls b.base = b.base ∧
       (ReadAt b p off).backend.base = b.base) ∧
      ((∀ c ∈ (WriteAt b p off).calls, c.isWrite = false) ∧
       applyBaseCalls (WriteAt b p off).calls b.base = b.base ∧
       (WriteAt b p off).backend.base = b.base) ∧
      ((∀ c ∈ (Size b).2, c.isWrite = false) ∧
       applyBaseCalls (Size b).2 b.base = b.base) ∧
      ((∀ c ∈ (Sync r).2, c.isWrite = false) ∧
       applyBaseCalls (Sync r).2 b.base = b.base) ∧
      ((∀ c ∈ (SyncOld r).2, c.isWrite = false) ∧
       applyBaseCalls (SyncOld r).2 b.base = b.base) ∧
      ((∀ c ∈ Close.2, c.isWrite = false) ∧
       applyBaseCalls Close.2 b.base = b.base) := by
  intro b p off r
  have hread : ∀ c ∈ (ReadAt b p off).calls, c.isWrite = false := by
    unfold ReadAt
    by_cases hp : p.length = 0
    · rw [if_pos hp]
      simp
    · rw [if_neg hp]
      intro c hc
      simp only [List.mem_singleton] at hc
      rw [hc]
      rfl
  have hreadbase : (ReadAt b p off).backend.base = b.base := by
    unfold ReadAt
    by_cases hp : p.length = 0
    · rw [if_pos hp]
    · rw [if_neg hp]
      dsimp only
      exact (readLoop_frame _ b _ off).1
  have hwrite : ∀ c ∈ (WriteAt b p off).calls, c.isWrite = false := by
    unfold WriteAt
    by_cases hp : p.length = 0
    · rw [if_pos hp]
      simp
    · rw [if_neg hp]
      dsimp only
      exact (writeLoop_frame _ b p off).2.2
  have hwritebase : (WriteAt b p off).backend.base = b.base := by
    unfold WriteAt
    by_cases hp : p.length = 0
    · rw [if_pos hp]
    · rw [if_neg hp]
      dsimp only
      exact (writeLoop_frame _ b p off).1
  have hsize : ∀ c ∈ (Size b).2, c.isWrite = false := by
    intro c hc
    simp only [Size, List.mem_singleton] at hc
    rw [hc]
    rfl
  have hsync : ∀ c ∈ (Sync r).2, c.isWrite = false := by
    intro c hc
    simp only [Sync, List.mem_singleton] at hc
    rw [hc]
    rfl
  have hsyncold : ∀ c ∈ (SyncOld r).2, c.isWrite = false := by
    intro c hc
    simp [SyncOld] at hc
  have hclose : ∀ c ∈ Close.2, c.isWrite = false := by
    intro c hc
    simp [Close] at hc
  exact ⟨⟨hread, applyBaseCalls_of_no_writes _ _ hread, hreadbase⟩,
         ⟨hwrite, applyBaseCalls_of_no_writes _ _ hwrite, hwritebase⟩,
         ⟨hsize, applyBaseCalls_of_no_writes _ _ hsize⟩,
         ⟨hsync, applyBaseCalls_of_no_writes _ _ hsync⟩,
         ⟨hsyncold, applyBaseCalls_of_no_writes _ _ hsyncold⟩,
         ⟨hclose, applyBaseCalls_of_no_writes _ _ hclose⟩⟩

/-- C5 counterexample: the `backend/cow.go` iteration's `Sync` does not
delegate to the base.  With a base whose flush reports an error, that
`Sync` returns `nil` (not the base's result) and issues no base sync
call. -/
theorem sync_old_not_delegating :
    (SyncOld (some "flush failed")).1 ≠ some "flush failed" ∧
    BaseCall.sync ∉ (SyncOld (some "flush failed")).2 := by
  constructor
  · intro h
    cases h
  · intro h
    cases h

/-- C5 amended: the later iteration's `CowBackend.Sync` delegates to the
base's flush and returns its result, while the `backend/cow.go` iteration's
`Sync` performs no base call and returns `nil` unconditionally. -/
theorem sync_spec :
    (∀ r : Option String, Sync r = (r, [BaseCall.sync])) ∧
    (∀ r : Option String, SyncOld r = (none, [])) :=
  ⟨fun _ => rfl, fun _ => rfl⟩

/-- C10: `CowBackend.WriteAt` never rejects a write as out-of-range.  For
any offset — including ranges partly or entirely past the base's end — a
write consumes exactly `len(p)` bytes, and every intersected sector with no
prior overlay file and no cache entry is stored as a full `sectorSize`-byte
overlay file: a zero-initialized buffer seeded from the (possibly short or
empty) base read, overlaid with the written bytes at the in-sector
offset. -/
theorem write_accepts_any_range (b : CowBackend) (p : List Nat) (off k : Nat)
    (hss : 0 < b.sectorSize) (hp : p ≠ [])
    (hover : b.overlay k = none) (hcache : b.cache k = none)
    (hk1 : off / b.sectorSize ≤ k) (hk2 : k ≤ (off + p.length - 1) / b.sectorSize) :
    (WriteAt b p off).count = p.length ∧
    (WriteAt b p off).backend.overlay k =
      some (splice
        (splice (List.replicate b.sectorSize 0) 0
          ((b.base.drop (k * b.sectorSize)).take b.sectorSize))
        (max (k * b.sectorSize) off - k * b.sectorSize)
        ((p.drop (max (k * b.sectorSize) off - off)).take
          (min ((k + 1) * b.sectorSize) (off + p.length)
            - max (k * b.sectorSize) off))) ∧
    (∀ d, (WriteAt b p off).backend.overlay k = some d → d.length = b.sectorSize) := by
  obtain ⟨w1, w2, w3, w4, wk⟩ := WriteAt_spec b p off hss hp
  have hkk := wk k
  rw [if_pos ⟨hk1, hk2⟩] at hkk
  simp only [Prod.mk.injEq] at hkk
  have hcontent : sectorWriteContent b p off k =
      splice
        (splice (List.replicate b.sectorSize 0) 0
          ((b.base.drop (k * b.sectorSize)).take b.sectorSize))
        (max (k * b.sectorSize) off - k * b.sectorSize)
        ((p.drop (max (k * b.sectorSize) off - off)).take
          (min ((k + 1) * b.sectorSize) (off + p.length)
            - max (k * b.sectorSize) off)) := by
    simp only [sectorWriteContent, seedSector, hover, hcache]
  refine ⟨w1, by rw [hkk.1, hcontent], ?_⟩
  intro d hd
  rw [hkk.1] at hd
  cases hd
  exact sectorWriteContent_length b p off k

/-- C10 witness: with an 8-byte base and sector size 4, writing two bytes
at offset 10 (entirely past the base's end) consumes both bytes and stores
sector 2 as the zero-seeded 4-byte buffer overlaid with the data. -/
theorem write_accepts_any_range_witness :
    (0 < (4 : Nat)) ∧ ([8, 9] : List Nat) ≠ [] ∧
    ((⟨List.replicate 8 7, 4, fun _ => none, fun _ => false, fun _ => none⟩ :
        CowBackend).overlay 2 = none) ∧
    (10 : Nat) / 4 ≤ 2 ∧ 2 ≤ (10 + ([8, 9] : List Nat).length - 1) / 4 ∧
    ((WriteAt ⟨List.replicate 8 7, 4, fun _ => none, fun _ => false, fun _ => none⟩
        [8, 9] 10).count = ([8, 9] : List Nat).length ∧
     (WriteAt ⟨List.replicate 8 7, 4, fun _ => none, fun _ => false, fun _ => none⟩
        [8, 9] 10).backend.overlay 2 =
      some (splice
        (splice (List.replicate 4 0) 0 (((List.replicate 8 7).drop (2 * 4)).take 4))
        (max (2 * 4) 10 - 2 * 4)
        (([8, 9].drop (max (2 * 4) 10 - 10)).take
          (min ((2 + 1) * 4) (10 + ([8, 9] : List Nat).length) - max (2 * 4) 10))) ∧
     (∀ d, (WriteAt ⟨List.replicate 8 7, 4, fun _ => none, fun _ => false, fun _ => none⟩
        [8, 9] 10).backend.overlay 2 = some d → d.length = 4)) :=
  ⟨by decide, by decide, rfl, by decide, by decide,
   write_accepts_any_range
     ⟨List.replicate 8 7, 4, fun _ => none, fun _ => false, fun _ => none⟩
     [8, 9] 10 2 (by decide) (by decide) rfl rfl (by decide) (by decide)⟩

end CowBackend

namespace CowBackend

/-- C1: Round-trip through the COW layer.  For every offset `O` with
`O + |B| ≤ base size` and every non-empty buffer `B`, `WriteAt B O`
consumes exactly `|B|` bytes, and a subsequent `ReadAt` of `|B|` bytes at
`O` — with the sector cache replaced by an arbitrary eviction of the
post-write cache — returns byte count `|B|` and exactly the bytes of
`B`. -/
theorem write_read_roundtrip (b : CowBackend) (B : List Nat) (O : Nat)
    (evicted : Nat → Option (List Nat))
    (hss : 0 < b.sectorSize) (hB : B ≠ [])
    (hrange : O + B.length ≤ b.base.length)
    (hevict : ∀ k, evicted k = (WriteAt b B O).backend.cache k ∨ evicted k = none) :
    (WriteAt b B O).count = B.length ∧
    (ReadAt (withCache (WriteAt b B O).backend evicted) (List.replicate B.length 0) O).count
      = B.length ∧
    (ReadAt (withCache (WriteAt b B O).backend evicted) (List.replicate B.length 0) O).buf
      = B := by
  obtain ⟨w1, w2, w3, w4, wk⟩ := WriteAt_spec b B O hss hB
  have hss2 : 0 < (withCache (WriteAt b B O).backend evicted).sectorSize := by
    rw [withCache_sectorSize, w3]; exact hss
  obtain ⟨r1, r2, r3, r4, r5, r6⟩ :=
    ReadAt_spec (withCache (WriteAt b B O).backend evicted) (List.replicate B.length 0) O hss2
  have hBpos : 0 < B.length := List.length_pos.mpr hB
  have hbase2 : (withCache (WriteAt b B O).backend evicted).base = b.base := by
    rw [withCache_base, w2]
  refine ⟨w1, ?_, ?_⟩
  · rw [r2, hbase2, List.length_replicate]
    omega
  · apply List.ext_getElem?
    intro n
    by_cases hn : n < B.length
    · have hq1 : O / b.sectorSize ≤ (O + n) / b.sectorSize := Nat.div_le_div_right (by omega)
      have hq2 : (O + n) / b.sectorSize ≤ (O + B.length - 1) / b.sectorSize :=
        Nat.div_le_div_right (by omega)
      have hkk := wk ((O + n) / b.sectorSize)
      rw [if_pos ⟨hq1, hq2⟩] at hkk
      simp only [Prod.mk.injEq] at hkk
      obtain ⟨hov, hca, hfl⟩ := hkk
      have hdm := Nat.div_add_mod (O + n) b.sectorSize
      have hml : (O + n) % b.sectorSize < b.sectorSize := Nat.mod_lt _ hss
      have hcm : (O + n) / b.sectorSize * b.sectorSize
          = b.sectorSize * ((O + n) / b.sectorSize) := Nat.mul_comm _ _
      have hcm2 : ((O + n) / b.sectorSize + 1) * b.sectorSize
          = (O + n) / b.sectorSize * b.sectorSize + b.sectorSize := Nat.succ_mul _ _
      have hcontent : (sectorWriteContent b B O
          ((O + n) / b.sectorSize))[(O + n) % b.sectorSize]? = B[n]? := by
        simp only [sectorWriteContent]
        rw [splice_getElem?, seedSector_fst_length, dropTake_length]
        rw [if_pos (by refine ⟨?_, ?_, ?_⟩ <;> omega)]
        rw [dropTake_getElem?, if_pos (by omega)]
        congr 1
        omega
      have hview : overlayView (withCache (WriteAt b B O).backend evicted) (O + n)
          = B[n]? := by
        unfold overlayView
        rw [withCache_sectorSize, w3, withCache_filter, withCache_overlay, withCache_cache]
        rw [hfl, if_pos rfl]
        cases hevict ((O + n) / b.sectorSize) with
        | inl hcase =>
          rw [hcase, hca]
          exact hcontent
        | inr hcase =>
          rw [hcase, hov]
          exact hcontent
      rw [r6 n (by rw [List.length_replicate]; exact hn), hview]
      cases hBn : B[n]? with
      | some v => rfl
      | none =>
        exfalso
        have := List.getElem?_eq_none_iff.mp hBn
        omega
    · rw [List.getElem?_eq_none (by rw [r1, List.length_replicate]; omega),
          List.getElem?_eq_none (by omega)]

/-- C1 witness: writing `[1, 2, 3]` at offset 2 into an 8-byte base with
sector size 4 and then reading 3 bytes at offset 2 — with the whole cache
evicted in between — returns byte count 3 and exactly `[1, 2, 3]`. -/
theorem write_read_roundtrip_witness :
    (0 < (4 : Nat)) ∧ ([1, 2, 3] : List Nat) ≠ [] ∧
    2 + ([1, 2, 3] : List Nat).length ≤ (List.replicate 8 7).length ∧
    (∀ k, (fun _ => none : Nat → Option (List Nat)) k =
        (WriteAt ⟨List.replicate 8 7, 4, fun _ => none, fun _ => false, fun _ => none⟩
          [1, 2, 3] 2).backend.cache k ∨
      (fun _ => none : Nat → Option (List Nat)) k = none) ∧
    ((WriteAt ⟨List.replicate 8 7, 4, fun _ => none, fun _ => false, fun _ => none⟩
        [1, 2, 3] 2).count = ([1, 2, 3] : List Nat).length ∧
     (ReadAt (withCache
        (WriteAt ⟨List.replicate 8 7, 4, fun _ => none, fun _ => false, fun _ => none⟩
          [1, 2, 3] 2).backend (fun _ => none))
        (List.replicate ([1, 2, 3] : List Nat).length 0) 2).count
      = ([1, 2, 3] : List Nat).length ∧
     (ReadAt (withCache
        (WriteAt ⟨List.replicate 8 7, 4, fun _ => none, fun _ => false, fun _ => none⟩
          [1, 2, 3] 2).backend (fun _ => none))
        (List.replicate ([1, 2, 3] : List Nat).length 0) 2).buf = [1, 2, 3]) :=
  ⟨by decide, by decide, by decide, fun k => Or.inr rfl,
   write_read_roundtrip
     ⟨List.replicate 8 7, 4, fun _ => none, fun _ => false, fun _ => none⟩
     [1, 2, 3] 2 (fun _ => none) (by decide) (by decide) (by decide)
     (fun k => Or.inr rfl)⟩

end CowBackend

theorem land_pred_eq_zero_iff :
    ∀ n : Nat, 0 < n → ((n &&& (n - 1)) = 0 ↔ ∃ k : Nat, n = 2 ^ k) := by
  intro n
  induction n using Nat.strong_induction_on with
  | _ n ih =>
    intro hn
    rcases Nat.even_or_odd n with he | ho
    · obtain ⟨m, hm⟩ := he
      have hm2 : n = 2 * m := by omega
      have hmpos : 0 < m := by omega
      have hsplit : (2 * m) &&& (2 * m - 1) = 2 * (m &&& (m - 1)) := by
        apply Nat.eq_of_testBit_eq
        intro i
        cases i with
        | zero =>
          rw [Nat.testBit_and]
          simp only [Nat.testBit_zero]
          have h1 : 2 * m % 2 = 0 := Nat.mul_mod_right 2 m
          have h2 : 2 * (m &&& (m - 1)) % 2 = 0 := Nat.mul_mod_right 2 _
          rw [h1, h2]
          simp
        | succ i =>
          rw [Nat.testBit_and]
          simp only [Nat.testBit_succ]
          rw [show 2 * m / 2 = m from Nat.mul_div_cancel_left m (by omega),
              show (2 * m - 1) / 2 = m - 1 from by omega,
              show 2 * (m &&& (m - 1)) / 2 = m &&& (m - 1)
                from Nat.mul_div_cancel_left _ (by omega),
              Nat.testBit_and]
      rw [hm2, hsplit]
      have hiff := ih m (by omega) hmpos
      constructor
      · intro h
        have hz : m &&& (m - 1) = 0 := by omega
        obtain ⟨k, hk⟩ := hiff.mp hz
        exact ⟨k + 1, by rw [Nat.pow_succ', ← hk]⟩
      · rintro ⟨k, hk⟩
        cases k with
        | zero =>
          exfalso
          simp only [Nat.pow_zero] at hk
          omega
        | succ j =>
          rw [Nat.pow_succ'] at hk
          have hmj : m = 2 ^ j := by omega
          have hz : m &&& (m - 1) = 0 := hiff.mpr ⟨j, hmj⟩
          omega
    · obtain ⟨m, hm⟩ := ho
      by_cases hm0 : m = 0
      · subst hm0
        simp only [Nat.mul_zero, Nat.zero_add] at hm
        subst hm
        constructor
        · intro _
          exact ⟨0, rfl⟩
        · intro _
          decide
      · have hmpos : 0 < m := by omega
        have hA : (2 * m + 1) &&& (2 * m) = 2 * m := by
          apply Nat.eq_of_testBit_eq
          intro i
          cases i with
          | zero =>
            rw [Nat.testBit_and]
            simp only [Nat.testBit_zero]
            have h1 : (2 * m + 1) % 2 = 1 := by omega
            have h2 : 2 * m % 2 = 0 := Nat.mul_mod_right 2 m
            rw [h1, h2]
            simp
          | succ i =>
            rw [Nat.testBit_and]
            simp only [Nat.testBit_succ]
            rw [show (2 * m + 1) / 2 = m from by omega,
                show 2 * m / 2 = m from Nat.mul_div_cancel_left m (by omega),
                Bool.and_self]
        rw [hm, show 2 * m + 1 - 1 = 2 * m from by omega, hA]
        constructor
        · intro h
          omega
        · rintro ⟨k, hk⟩
          cases k with
          | zero =>
            simp only [Nat.pow_zero] at hk
            omega
          | succ j =>
            rw [Nat.pow_succ'] at hk
            omega

/-- C7: Construction-time validation of the sector size.  `NewCowBackend`
passes its sector-size check exactly for sizes that are a power of two and
a multiple of 512; every other size fails construction with the
invalid-configuration error, so the result is always either `ok` or that
error. -/
theorem newCowBackend_validation (sectorSize : Int) :
    ((CowBackend.NewCowBackend sectorSize = Except.ok ()) ↔
      ((∃ k : Nat, sectorSize = 2 ^ k) ∧ (512 : Int) ∣ sectorSize)) ∧
    (CowBackend.NewCowBackend sectorSize = Except.ok () ∨
     CowBackend.NewCowBackend sectorSize
       = Except.error "sector size must be a multiple of 512 and a power of 2") := by
  unfold CowBackend.NewCowBackend
  by_cases h1 : sectorSize < 512 ∨ (sectorSize.toNat &&& (sectorSize.toNat - 1)) ≠ 0
  · rw [if_pos h1]
    refine ⟨⟨fun h => Except.noConfusion h, ?_⟩, Or.inr rfl⟩
    rintro ⟨⟨k, hk⟩, hdvd⟩
    exfalso
    have hpos : (0 : Int) < sectorSize := by
      rw [hk]
      exact pow_pos (by norm_num) k
    have hge : (512 : Int) ≤ sectorSize := Int.le_of_dvd hpos hdvd
    have hcast : (sectorSize.toNat : Int) = sectorSize := Int.toNat_of_nonneg (by omega)
    have htn : sectorSize.toNat = 2 ^ k := by
      have : (sectorSize.toNat : Int) = ((2 ^ k : Nat) : Int) := by
        rw [hcast, hk]
        push_cast
        ring
      exact_mod_cast this
    have hland : sectorSize.toNat &&& (sectorSize.toNat - 1) = 0 :=
      (land_pred_eq_zero_iff sectorSize.toNat (by rw [htn]; exact Nat.pos_pow_of_pos k (by omega))).mpr
        ⟨k, htn⟩
    cases h1 with
    | inl h => omega
    | inr h => exact h hland
  · rw [if_neg h1]
    push_neg at h1
    obtain ⟨hge, hland⟩ := h1
    refine ⟨⟨fun _ => ?_, fun _ => rfl⟩, Or.inl rfl⟩
    have hcast : (sectorSize.toNat : Int) = sectorSize := Int.toNat_of_nonneg (by omega)
    have hpos : 0 < sectorSize.toNat := by omega
    obtain ⟨k, hk⟩ := (land_pred_eq_zero_iff sectorSize.toNat hpos).mp hland
    have hkge : 9 ≤ k := by
      have h512 : (2 : Nat) ^ 9 ≤ 2 ^ k := by
        rw [← hk]
        omega
      exact (Nat.pow_le_pow_iff_right (by omega)).mp h512
    constructor
    · refine ⟨k, ?_⟩
      rw [← hcast, hk]
      push_cast
      ring
    · have hdvdn : (2 ^ 9 : Nat) ∣ 2 ^ k := pow_dvd_pow 2 hkge
      have : ((2 ^ 9 : Nat) : Int) ∣ ((2 ^ k : Nat) : Int) := Int.natCast_dvd_natCast.mpr hdvdn
      rw [← hk, hcast] at this
      have h29 : ((2 ^ 9 : Nat) : Int) = 512 := by norm_num
      rw [h29] at this
      exact this


namespace PrefetchBackend

/-- C3 counterexample: the claimed classification rule is false on the
code.  In the state reached after a read at offset 0 of length 50 (so
`lastReadOffset = 0`, `lastReadLength = 50`, streak 7), a read at offset 50
satisfies `off = lastReadOffset + lastReadLength` with the sum nonzero, yet
`detectSequential` classifies it as non-sequential (the code requires
`lastReadOffset ≠ 0 && lastReadLength ≠ 0`), and it also leaves the streak
at 7 instead of resetting it to zero. -/
theorem detectSequential_claim_false :
    ¬ (∀ (s : PrefetchBackend) (off len : Nat),
        ((detectSequential s off len).2.1 = true ↔
          (off = s.lastReadOffset + s.lastReadLength
            ∧ s.lastReadOffset + s.lastReadLength ≠ 0)) ∧
        ((detectSequential s off len).2.1 = false →
          (detectSequential s off len).1.consecutiveReads = 0)) := by
  intro h
  have h1 := h ⟨4, 1, 2, 0, 50, 7, [], 0, 0, false⟩ 50 10
  have htrue : (detectSequential ⟨4, 1, 2, 0, 50, 7, [], 0, 0, false⟩ 50 10).2.1 = true :=
    h1.1.mpr (by decide)
  have hfalse : (detectSequential ⟨4, 1, 2, 0, 50, 7, [], 0, 0, false⟩ 50 10).2.1 = false := by
    decide
  rw [htrue] at hfalse
  cases hfalse

/-- C3 amended: in `PrefetchBackend.ReadAt`'s detection step, a read at
`(off, len)` is classified sequential iff `off = lastReadOffset +
lastReadLength` and both `lastReadOffset` and `lastReadLength` are
individually nonzero; on a sequential read the streak increments, capped at
`maxConsecutiveReads`; the streak resets to zero only on a non-sequential
read with both fields nonzero, and is left unchanged otherwise;
`lastReadOffset`/`lastReadLength` are always updated to the current
request. -/
theorem detectSequential_spec (s : PrefetchBackend) (off len : Nat)
    (hcap : s.consecutiveReads ≤ s.maxConsecutiveReads) :
    ((detectSequential s off len).2.1 = true ↔
      (off = s.lastReadOffset + s.lastReadLength
        ∧ s.lastReadOffset ≠ 0 ∧ s.lastReadLength ≠ 0)) ∧
    (detectSequential s off len).1.lastReadOffset = off ∧
    (detectSequential s off len).1.lastReadLength = len ∧
    (detectSequential s off len).1.consecutiveReads =
      (if off = s.lastReadOffset + s.lastReadLength
          ∧ s.lastReadOffset ≠ 0 ∧ s.lastReadLength ≠ 0 then
        min (s.consecutiveReads + 1) s.maxConsecutiveReads
      else if s.lastReadOffset ≠ 0 ∧ s.lastReadLength ≠ 0 then 0
      else s.consecutiveReads) := by
  unfold detectSequential
  by_cases h1 : s.lastReadOffset ≠ 0 ∧ s.lastReadLength ≠ 0
  · by_cases h2 : off = s.lastReadOffset + s.lastReadLength
    · have hcond : off = s.lastReadOffset + s.lastReadLength
          ∧ s.lastReadOffset ≠ 0 ∧ s.lastReadLength ≠ 0 := ⟨h2, h1⟩
      rw [if_pos h1, if_pos h2, if_pos hcond]
      by_cases h3 : s.consecutiveReads < s.maxConsecutiveReads
      · rw [if_pos h3]
        refine ⟨⟨fun _ => hcond, fun _ => rfl⟩, rfl, rfl, ?_⟩
        show s.consecutiveReads + 1 = min (s.consecutiveReads + 1) s.maxConsecutiveReads
        omega
      · rw [if_neg h3]
        refine ⟨⟨fun _ => hcond, fun _ => rfl⟩, rfl, rfl, ?_⟩
        show s.consecutiveReads = min (s.consecutiveReads + 1) s.maxConsecutiveReads
        omega
    · have hcond : ¬ (off = s.lastReadOffset + s.lastReadLength
          ∧ s.lastReadOffset ≠ 0 ∧ s.lastReadLength ≠ 0) := fun hcon => h2 hcon.1
      rw [if_pos h1, if_neg h2, if_neg hcond, if_pos h1]
      exact ⟨⟨fun h => Bool.noConfusion h, fun hcon => absurd hcon.1 h2⟩, rfl, rfl, rfl⟩
  · have hcond : ¬ (off = s.lastReadOffset + s.lastReadLength
        ∧ s.lastReadOffset ≠ 0 ∧ s.lastReadLength ≠ 0) :=
      fun hcon => h1 ⟨hcon.2.1, hcon.2.2⟩
    rw [if_neg h1, if_neg hcond, if_neg h1]
    exact ⟨⟨fun h => Bool.noConfusion h, fun hcon => absurd ⟨hcon.2.1, hcon.2.2⟩ h1⟩,
           rfl, rfl, rfl⟩

/-- C3 witness: after a read at offset 100 of length 4 with streak 1 and
threshold 2, a read at offset 104 is sequential, the streak becomes 2, and
the last-read fields are updated. -/
theorem detectSequential_spec_witness :
    (⟨4, 1, 2, 100, 4, 1, [], 0, 0, false⟩ : PrefetchBackend).consecutiveReads ≤
      (⟨4, 1, 2, 100, 4, 1, [], 0, 0, false⟩ : PrefetchBackend).maxConsecutiveReads ∧
    (((detectSequential ⟨4, 1, 2, 100, 4, 1, [], 0, 0, false⟩ 104 4).2.1 = true ↔
        (104 = (⟨4, 1, 2, 100, 4, 1, [], 0, 0, false⟩ :
            PrefetchBackend).lastReadOffset +
          (⟨4, 1, 2, 100, 4, 1, [], 0, 0, false⟩ : PrefetchBackend).lastReadLength
          ∧ (⟨4, 1, 2, 100, 4, 1, [], 0, 0, false⟩ :
              PrefetchBackend).lastReadOffset ≠ 0
          ∧ (⟨4, 1, 2, 100, 4, 1, [], 0, 0, false⟩ :
              PrefetchBackend).lastReadLength ≠ 0)) ∧
     (detectSequential ⟨4, 1, 2, 100, 4, 1, [], 0, 0, false⟩ 104 4).1.lastReadOffset = 104 ∧
     (detectSequential ⟨4, 1, 2, 100, 4, 1, [], 0, 0, false⟩ 104 4).1.lastReadLength = 4 ∧
     (detectSequential ⟨4, 1, 2, 100, 4, 1, [], 0, 0, false⟩ 104 4).1.consecutiveReads =
      (if 104 = (⟨4, 1, 2, 100, 4, 1, [], 0, 0, false⟩ : PrefetchBackend).lastReadOffset +
            (⟨4, 1, 2, 100, 4, 1, [], 0, 0, false⟩ : PrefetchBackend).lastReadLength
          ∧ (⟨4, 1, 2, 100, 4, 1, [], 0, 0, false⟩ :
              PrefetchBackend).lastReadOffset ≠ 0
          ∧ (⟨4, 1, 2, 100, 4, 1, [], 0, 0, false⟩ :
              PrefetchBackend).lastReadLength ≠ 0 then
        min ((⟨4, 1, 2, 100, 4, 1, [], 0, 0, false⟩ :
            PrefetchBackend).consecutiveReads + 1)
          (⟨4, 1, 2, 100, 4, 1, [], 0, 0, false⟩ : PrefetchBackend).maxConsecutiveReads
      else if (⟨4, 1, 2, 100, 4, 1, [], 0, 0, false⟩ :
            PrefetchBackend).lastReadOffset ≠ 0
          ∧ (⟨4, 1, 2, 100, 4, 1, [], 0, 0, false⟩ :
              PrefetchBackend).lastReadLength ≠ 0 then 0
      else (⟨4, 1, 2, 100, 4, 1, [], 0, 0, false⟩ :
          PrefetchBackend).consecutiveReads)) :=
  ⟨by decide,
   detectSequential_spec ⟨4, 1, 2, 100, 4, 1, [], 0, 0, false⟩ 104 4 (by decide)⟩

end PrefetchBackend

namespace PrefetchBackend

theorem detectSequential_frame (s : PrefetchBackend) (off len : Nat) :
    (detectSequential s off len).1.prefetchBuffer = s.prefetchBuffer ∧
    (detectSequential s off len).1.prefetchStartOffset = s.prefetchStartOffset ∧
    (detectSequential s off len).1.prefetchEndOffset = s.prefetchEndOffset ∧
    (detectSequential s off len).1.prefetchValid = s.prefetchValid ∧
    (detectSequential s off len).1.sectorSize = s.sectorSize ∧
    (detectSequential s off len).1.prefetchMultiplier = s.prefetchMultiplier ∧
    (detectSequential s off len).1.maxConsecutiveReads = s.maxConsecutiveReads := by
  unfold detectSequential
  by_cases h1 : s.lastReadOffset ≠ 0 ∧ s.lastReadLength ≠ 0
  · by_cases h2 : off = s.lastReadOffset + s.lastReadLength
    · rw [if_pos h1, if_pos h2]
      exact ⟨rfl, rfl, rfl, rfl, rfl, rfl, rfl⟩
    · rw [if_pos h1, if_neg h2]
      exact ⟨rfl, rfl, rfl, rfl, rfl, rfl, rfl⟩
  · rw [if_neg h1]
    exact ⟨rfl, rfl, rfl, rfl, rfl, rfl, rfl⟩

theorem baseReadAt_full (inner : List Nat) (off len : Nat)
    (hrange : off + len ≤ inner.length) :
    (baseReadAt inner (List.replicate len 0) off).buf = (inner.drop off).take len ∧
    (baseReadAt inner (List.replicate len 0) off).count = len ∧
    (baseReadAt inner (List.replicate len 0) off).eof = false := by
  unfold baseReadAt
  dsimp only
  simp only [List.length_replicate]
  refine ⟨?_, ?_, ?_⟩
  · apply splice_zero_of_length_eq
    rw [dropTake_length, List.length_replicate]
    omega
  · rw [dropTake_length]
    omega
  · rw [dropTake_length]
    simp only [decide_eq_false_iff_not]
    omega


theorem BufferInv_congr (inner : List Nat) (s t : PrefetchBackend)
    (hb : t.prefetchBuffer = s.prefetchBuffer)
    (hs : t.prefetchStartOffset = s.prefetchStartOffset)
    (he : t.prefetchEndOffset = s.prefetchEndOffset)
    (hv : t.prefetchValid = s.prefetchValid)
    (h : BufferInv inner s) : BufferInv inner t := by
  intro hvt
  rw [hb, hs, he]
  exact h (by rw [← hv]; exact hvt)

end PrefetchBackend

namespace PrefetchBackend

theorem ReadAt_step (inner : List Nat) (s : PrefetchBackend) (off len : Nat)
    (hinv : BufferInv inner s)
    (hrange : off + len ≤ inner.length)
    (hlen : len ≤ s.sectorSize * s.prefetchMultiplier) :
    ((ReadAt inner s (List.replicate len 0) off).buf
       = (baseReadAt inner (List.replicate len 0) off).buf ∧
     (ReadAt inner s (List.replicate len 0) off).count
       = (baseReadAt inner (List.replicate len 0) off).count ∧
     (ReadAt inner s (List.replicate len 0) off).eof
       = (baseReadAt inner (List.replicate len 0) off).eof) ∧
    BufferInv inner (ReadAt inner s (List.replicate len 0) off).backend ∧
    (ReadAt inner s (List.replicate len 0) off).backend.sectorSize = s.sectorSize ∧
    (ReadAt inner s (List.replicate len 0) off).backend.prefetchMultiplier
      = s.prefetchMultiplier := by
  obtain ⟨hdb, hdc, hde⟩ := baseReadAt_full inner off len hrange
  by_cases hl0 : len = 0
  · subst hl0
    unfold ReadAt
    rw [if_pos (by rw [List.length_replicate])]
    exact ⟨⟨by rw [hdb]; simp, by rw [hdc], by rw [hde]⟩, hinv, rfl, rfl⟩
  · obtain ⟨f1, f2, f3, f4, f5, f6, f7⟩ := detectSequential_frame s off len
    unfold ReadAt
    rw [if_neg (by rw [List.length_replicate]; exact hl0)]
    dsimp only
    simp only [List.length_replicate]
    rw [f1, f2, f3, f4, f5, f6, f7]
    by_cases hfull : s.prefetchValid = true ∧ s.prefetchStartOffset ≤ off
        ∧ off + len ≤ s.prefetchEndOffset
    · -- full cache hit
      rw [if_pos hfull]
      obtain ⟨a1, a2, a3, a4⟩ := hinv hfull.1
      refine ⟨⟨?_, by rw [hdc], by rw [hde]⟩, ?_, rfl, rfl⟩
      · rw [hdb]
        show splice (List.replicate len 0) 0
            ((s.prefetchBuffer.drop (off - s.prefetchStartOffset)).take len)
          = (inner.drop off).take len
        apply List.ext_getElem?
        intro j
        rw [splice_getElem?, List.length_replicate, Nat.sub_zero, dropTake_length]
        by_cases hj : j < len
        · rw [if_pos (by refine ⟨by omega, by omega, hj⟩)]
          rw [dropTake_getElem?, if_pos hj,
              a4 (off - s.prefetchStartOffset + j) (by omega),
              dropTake_getElem?, if_pos hj]
          congr 1
          omega
        · rw [if_neg (by omega), List.getElem?_replicate, if_neg hj,
              dropTake_getElem?, if_neg hj]
      · exact BufferInv_congr inner s _ rfl rfl rfl rfl hinv
    · rw [if_neg hfull]
      by_cases hpart : s.prefetchValid = true ∧
          ((s.prefetchStartOffset ≤ off ∧ off < s.prefetchEndOffset
             ∧ s.prefetchEndOffset < off + len) ∨
           (off < s.prefetchStartOffset ∧ s.prefetchStartOffset < off + len
             ∧ off + len ≤ s.prefetchEndOffset))
      · -- partial cache hit
        rw [if_pos hpart]
        obtain ⟨a1, a2, a3, a4⟩ := hinv hpart.1
        by_cases hw : s.prefetchStartOffset ≤ off
        · -- case 1: the head of the request is in the buffer
          have hc1 : off < s.prefetchEndOffset ∧ s.prefetchEndOffset < off + len := by
            rcases hpart.2 with hc | hc
            · exact ⟨hc.2.1, hc.2.2⟩
            · omega
          rw [if_pos hw, if_pos hw, Nat.sub_self, if_neg (lt_irrefl 0),
              if_pos (show 0 + (s.prefetchEndOffset - off) < len from by omega)]
          refine ⟨⟨?_, by rw [hdc], by rw [hde]⟩,
                  BufferInv_congr inner s _ f1 f2 f3 f4 hinv, f5, f6⟩
          rw [hdb]
          show splice
              (splice (List.replicate len 0) 0
                ((s.prefetchBuffer.drop (off - s.prefetchStartOffset)).take
                  (s.prefetchEndOffset - off)))
              (0 + (s.prefetchEndOffset - off))
              ((inner.drop (off + 0 + (s.prefetchEndOffset - off))).take
                (len - (0 + (s.prefetchEndOffset - off))))
            = (inner.drop off).take len
          apply List.ext_getElem?
          intro j
          rw [splice_getElem?, splice_length, List.length_replicate]
          by_cases hj : j < len
          · by_cases hj2 : j < s.prefetchEndOffset - off
            · rw [if_neg (by rw [dropTake_length]; omega)]
              rw [splice_getElem?, List.length_replicate, Nat.sub_zero, dropTake_length]
              rw [if_pos (by refine ⟨by omega, by omega, hj⟩)]
              rw [dropTake_getElem?, if_pos (by omega),
                  a4 (off - s.prefetchStartOffset + j) (by omega),
                  dropTake_getElem?, if_pos hj]
              congr 1
              omega
            · rw [if_pos (by rw [dropTake_length]; refine ⟨by omega, by omega, hj⟩)]
              rw [dropTake_getElem?, if_pos (by omega), dropTake_getElem?, if_pos hj]
              congr 1
              omega
          · rw [if_neg (by omega)]
            rw [splice_getElem?, List.length_replicate, Nat.sub_zero]
            rw [if_neg (by omega), List.getElem?_replicate, if_neg hj,
                dropTake_getElem?, if_neg hj]
        · -- case 2: the tail of the request is in the buffer
          have hc2 : off < s.prefetchStartOffset ∧ s.prefetchStartOffset < off + len
              ∧ off + len ≤ s.prefetchEndOffset := by
            rcases hpart.2 with hc | hc
            · omega
            · exact hc
          rw [if_neg hw, if_neg hw, Nat.sub_self, List.drop_zero,
              if_pos (show 0 < s.prefetchStartOffset - off from by omega),
              if_neg (show ¬ (s.prefetchStartOffset - off
                  + (off + len - s.prefetchStartOffset) < len) from by omega)]
          refine ⟨⟨?_, by rw [hdc], by rw [hde]⟩,
                  BufferInv_congr inner s _ f1 f2 f3 f4 hinv, f5, f6⟩
          rw [hdb]
          show splice
              (splice (List.replicate len 0) (s.prefetchStartOffset - off)
                (s.prefetchBuffer.take (off + len - s.prefetchStartOffset)))
              0 ((inner.drop off).take (s.prefetchStartOffset - off))
            = (inner.drop off).take len
          apply List.ext_getElem?
          intro j
          rw [splice_getElem?, splice_length, List.length_replicate, Nat.sub_zero]
          by_cases hj : j < len
          · by_cases hj2 : j < s.prefetchStartOffset - off
            · rw [if_pos (by rw [dropTake_length]; refine ⟨by omega, by omega, hj⟩)]
              rw [dropTake_getElem?, if_pos hj2, dropTake_getElem?, if_pos hj]
            · rw [if_neg (by rw [dropTake_length]; omega)]
              rw [splice_getElem?, List.length_replicate, List.length_take]
              rw [if_pos (by refine ⟨by omega, by omega, hj⟩)]
              rw [List.getElem?_take_of_lt (by omega),
                  a4 (j - (s.prefetchStartOffset - off)) (by omega),
                  dropTake_getElem?, if_pos hj]
              congr 1
              omega
          · rw [if_neg (by omega)]
            rw [splice_getElem?, List.length_replicate]
            rw [if_neg (by omega), List.getElem?_replicate, if_neg hj,
                dropTake_getElem?, if_neg hj]
      · -- no cache overlap at all
        rw [if_neg hpart]
        cases hsp : (detectSequential s off len).2.2 with
        | true =>
          rw [if_pos rfl]
          have halloc : s.sectorSize * s.prefetchMultiplier ≤
              (if s.prefetchBuffer.length < s.sectorSize * s.prefetchMultiplier
               then List.replicate (s.sectorSize * s.prefetchMultiplier) 0
               else s.prefetchBuffer).length := by
            by_cases hb : s.prefetchBuffer.length < s.sectorSize * s.prefetchMultiplier
            · rw [if_pos hb, List.length_replicate]
            · rw [if_neg hb]; omega
          rw [if_pos (by rw [dropTake_length]; omega)]
          refine ⟨⟨?_, by rw [hdc], by rw [hde]⟩, ?_, rfl, rfl⟩
          · rw [hdb]
            show splice (List.replicate len 0) 0
                ((splice
                  (if s.prefetchBuffer.length < s.sectorSize * s.prefetchMultiplier
                   then List.replicate (s.sectorSize * s.prefetchMultiplier) 0
                   else s.prefetchBuffer) 0
                  ((inner.drop off).take (s.sectorSize * s.prefetchMultiplier))).take len)
              = (inner.drop off).take len
            apply List.ext_getElem?
            intro j
            rw [splice_getElem?, List.length_replicate, Nat.sub_zero, List.length_take]
            by_cases hj : j < len
            · rw [if_pos (by
                  refine ⟨by omega, ?_, hj⟩
                  rw [splice_length]
                  omega)]
              rw [List.getElem?_take_of_lt hj, splice_getElem?, Nat.sub_zero]
              rw [if_pos (by rw [dropTake_length]; refine ⟨by omega, by omega, by omega⟩)]
              rw [dropTake_getElem?, if_pos (by omega), dropTake_getElem?, if_pos hj]
            · rw [if_neg (by omega), List.getElem?_replicate, if_neg hj,
                  dropTake_getElem?, if_neg hj]
          · intro _
            refine ⟨?_, ?_, ?_, ?_⟩
            · show off ≤ off + ((inner.drop off).take
                (s.sectorSize * s.prefetchMultiplier)).length
              omega
            · show off + ((inner.drop off).take
                (s.sectorSize * s.prefetchMultiplier)).length ≤ inner.length
              rw [dropTake_length]
              omega
            · show off + ((inner.drop off).take (s.sectorSize * s.prefetchMultiplier)).length
                  - off ≤
                (splice
                  (if s.prefetchBuffer.length < s.sectorSize * s.prefetchMultiplier
                   then List.replicate (s.sectorSize * s.prefetchMultiplier) 0
                   else s.prefetchBuffer) 0
                  ((inner.drop off).take (s.sectorSize * s.prefetchMultiplier))).length
              rw [splice_length, dropTake_length]
              omega
            · intro j hj
              have hj' : j < ((inner.drop off).take
                  (s.sectorSize * s.prefetchMultiplier)).length := by
                have : off + ((inner.drop off).take
                    (s.sectorSize * s.prefetchMultiplier)).length - off
                  = ((inner.drop off).take (s.sectorSize * s.prefetchMultiplier)).length := by
                  omega
                rw [this] at hj
                exact hj
              show (splice
                  (if s.prefetchBuffer.length < s.sectorSize * s.prefetchMultiplier
                   then List.replicate (s.sectorSize * s.prefetchMultiplier) 0
                   else s.prefetchBuffer) 0
                  ((inner.drop off).take (s.sectorSize * s.prefetchMultiplier)))[j]?
                = inner[off + j]?
              rw [splice_getElem?, Nat.sub_zero]
              rw [dropTake_length] at hj'
              rw [if_pos (by rw [dropTake_length]; refine ⟨by omega, by omega, by omega⟩)]
              rw [dropTake_getElem?, if_pos (by omega)]
        | false =>
          rw [if_neg Bool.false_ne_true]
          exact ⟨⟨rfl, rfl, rfl⟩, BufferInv_congr inner s _ f1 f2 f3 f4 hinv, f5, f6⟩

end PrefetchBackend

namespace PrefetchBackend

theorem runPrefetch_eq_runDirect_aux (inner : List Nat) (reqs : List (Nat × Nat)) :
    ∀ s : PrefetchBackend, BufferInv inner s →
    (∀ r ∈ reqs, r.1 + r.2 ≤ inner.length
        ∧ r.2 ≤ s.sectorSize * s.prefetchMultiplier) →
    runPrefetch inner s reqs = runDirect inner reqs := by
  induction reqs with
  | nil => intro s _ _; rfl
  | cons q rest ih =>
    intro s hinv hreqs
    obtain ⟨off, len⟩ := q
    obtain ⟨hr1, hr2⟩ := hreqs (off, len) (List.mem_cons_self _ _)
    obtain ⟨⟨hb, hc, he⟩, hinv', hss, hmul⟩ := ReadAt_step inner s off len hinv hr1 hr2
    show ((ReadAt inner s (List.replicate len 0) off).buf,
          (ReadAt inner s (List.replicate len 0) off).count,
          (ReadAt inner s (List.replicate len 0) off).eof) ::
         runPrefetch inner (ReadAt inner s (List.replicate len 0) off).backend rest
       = ((baseReadAt inner (List.replicate len 0) off).buf,
          (baseReadAt inner (List.replicate len 0) off).count,
          (baseReadAt inner (List.replicate len 0) off).eof) :: runDirect inner rest
    rw [hb, hc, he,
        ih (ReadAt inner s (List.replicate len 0) off).backend hinv'
          (by
            intro r hr
            obtain ⟨h1, h2⟩ := hreqs r (List.mem_cons_of_mem _ hr)
            rw [hss, hmul]
            exact ⟨h1, h2⟩)]

/-- C4 counterexample: prefetch is not transparent for arbitrary read
sequences.  Over a 16-byte inner store, with sector size 4, prefetch
multiplier 1 and max-consecutive-reads 1, the reads (4,4) then (8,8)
trigger a prefetch of only 4 bytes on the second read; the code then
returns count 4 with an end-of-stream indication, while the direct reads
return the full 8 bytes with no end-of-stream. -/
theorem prefetch_not_transparent :
    runPrefetch (List.range 16) (NewPrefetchBackend 4 1 1) [(4, 4), (8, 8)]
      ≠ runDirect (List.range 16) [(4, 4), (8, 8)] := by decide

/-- C4 (amended): prefetch transparency holds for read sequences whose
requests stay within the inner backend and whose lengths do not exceed the
prefetch window `sectorSize * prefetchMultiplier`: each call returns the
same bytes, the same count and the same end-of-stream indication as the
identical sequence of direct reads against the inner backend. -/
theorem prefetch_transparent (inner : List Nat) (ss mult maxReads : Nat)
    (reqs : List (Nat × Nat))
    (hreqs : ∀ r ∈ reqs, r.1 + r.2 ≤ inner.length ∧ r.2 ≤ ss * mult) :
    runPrefetch inner (NewPrefetchBackend ss mult maxReads) reqs
      = runDirect inner reqs := by
  apply runPrefetch_eq_runDirect_aux
  · intro hv
    exact Bool.noConfusion hv
  · exact hreqs

theorem prefetch_transparent_witness :
    (∀ r ∈ [((0 : Nat), (4 : Nat)), (4, 4), (8, 4), (12, 4)],
        r.1 + r.2 ≤ (List.range 16).length ∧ r.2 ≤ 4 * 1) ∧
    runPrefetch (List.range 16) (NewPrefetchBackend 4 1 2)
        [(0, 4), (4, 4), (8, 4), (12, 4)]
      = runDirect (List.range 16) [(0, 4), (4, 4), (8, 4), (12, 4)] :=
  ⟨by decide,
   prefetch_transparent (List.range 16) 4 1 2 [(0, 4), (4, 4), (8, 4), (12, 4)]
     (by decide)⟩

end PrefetchBackend


/-- C9: in non-dry-run mode, each collected sector file with parsed sector
index and sector size is written at byte position
`offset * size + deviceOffset` of the target: exactly `size` bytes are
copied there from the sector file, the rest of the target is unchanged,
and the target keeps its length; in dry-run mode nothing is written. -/
theorem patch_applies_sector (target : List Nat) (devOff : Nat) (s : SectorInfo)
    (hdata : s.size ≤ s.data.length)
    (hfit : s.offset * s.size + devOff + s.size ≤ target.length) :
    (patchSectorsRun target devOff false [s]).length = target.length ∧
    (∀ j, j < s.size →
      (patchSectorsRun target devOff false [s])[s.offset * s.size + devOff + j]?
        = s.data[j]?) ∧
    (∀ i, i < s.offset * s.size + devOff ∨ s.offset * s.size + devOff + s.size ≤ i →
      (patchSectorsRun target devOff false [s])[i]? = target[i]?) ∧
    patchSectorsRun target devOff true [s] = target := by
  show (applySector target devOff s).length = target.length ∧
    (∀ j, j < s.size →
      (applySector target devOff s)[s.offset * s.size + devOff + j]? = s.data[j]?) ∧
    (∀ i, i < s.offset * s.size + devOff ∨ s.offset * s.size + devOff + s.size ≤ i →
      (applySector target devOff s)[i]? = target[i]?) ∧
    target = target
  unfold applySector
  refine ⟨splice_length _ _ _, ?_, ?_, rfl⟩
  · intro j hj
    rw [splice_getElem?, List.length_take]
    rw [if_pos (by refine ⟨by omega, by omega, by omega⟩)]
    have : s.offset * s.size + devOff + j - (s.offset * s.size + devOff) = j := by
      omega
    rw [this, List.getElem?_take_of_lt hj]
  · intro i hi
    rw [splice_getElem?, List.length_take]
    rw [if_neg (by omega)]

theorem patch_applies_sector_witness :
    ((4 : Nat) ≤ ([9, 9, 9, 9, 9] : List Nat).length
      ∧ (2 : Nat) * 4 + 1 + 4 ≤ (List.replicate 16 (0 : Nat)).length) ∧
    ((patchSectorsRun (List.replicate 16 0) 1 false [⟨2, 4, [9, 9, 9, 9, 9]⟩]).length
        = (List.replicate 16 (0 : Nat)).length ∧
     (∀ j, j < (4 : Nat) →
       (patchSectorsRun (List.replicate 16 0) 1 false
         [⟨2, 4, [9, 9, 9, 9, 9]⟩])[2 * 4 + 1 + j]? = ([9, 9, 9, 9, 9] : List Nat)[j]?) ∧
     (∀ i, i < (2 : Nat) * 4 + 1 ∨ (2 : Nat) * 4 + 1 + 4 ≤ i →
       (patchSectorsRun (List.replicate 16 0) 1 false
         [⟨2, 4, [9, 9, 9, 9, 9]⟩])[i]? = (List.replicate 16 (0 : Nat))[i]?) ∧
     patchSectorsRun (List.replicate 16 0) 1 true [⟨2, 4, [9, 9, 9, 9, 9]⟩]
       = List.replicate 16 0) :=
  ⟨by decide,
   patch_applies_sector (List.replicate 16 0) 1 ⟨2, 4, [9, 9, 9, 9, 9]⟩
     (by decide) (by decide)⟩
